import Mathlib

/-!
Verification of the tabular preprocessing pipeline
(`src/data_preprocessing/{load_data, clean_data, feature_engineering, split_data}.py`).

A pandas `DataFrame` is modelled shallowly: an ordered list of named, typed
columns together with a list of rows, each row a list of cells.  Numeric cells
carry exact rationals (`ℚ`), text cells carry strings, and the pandas `NaN`
missing marker is the dedicated `Cell.missing` constructor.  Stateful pandas
operations become pure functions from `DataFrame` to `DataFrame`; Python
`try/except` blocks become `Except`-valued bodies whose error payload is the
table as it stood when the exception was raised, caught at the stage boundary.
-/
/-- Column dtype: pandas numeric dtypes versus `object` (string) columns. -/
inductive Dtype
  | numeric
  | object
deriving DecidableEq

/-- A single cell: a numeric value, a text value, or the missing marker (NaN). -/
inductive Cell
  | num (q : ℚ)
  | text (s : String)
  | missing
deriving DecidableEq

/-- `true` on the missing marker. -/
def Cell.isMissing : Cell → Bool
  | .missing => true
  | _ => false

/-- Whether a cell is admissible in a column of the given dtype. -/
def cellMatches : Dtype → Cell → Bool
  | _, .missing => true
  | .numeric, .num _ => true
  | .object, .text _ => true
  | _, _ => false

/-- A pandas `DataFrame`: named, typed columns and the row data. -/
structure DataFrame where
  cols : List (String × Dtype)
  rows : List (List Cell)
deriving DecidableEq

/-- Well-formedness: every row has one cell per column and each cell is
admissible for its column dtype. -/
def DataFrame.wf (df : DataFrame) : Bool :=
  df.rows.all fun r =>
    r.length == df.cols.length &&
      (df.cols.zip r).all fun p => cellMatches p.1.2 p.2

/-- Index of the first column with the given name (`df.columns` lookup). -/
def colIdx (df : DataFrame) (c : String) : Option ℕ :=
  df.cols.findIdx? fun p => p.1 == c

/-- The cells of column `j`, top to bottom (`df[col]`). -/
def getCol (df : DataFrame) (j : ℕ) : List Cell :=
  df.rows.map fun r => r.getD j Cell.missing

/-- Replace column `j` pointwise by `f` (`df[col] = f(df[col])` elementwise). -/
def mapCol (df : DataFrame) (j : ℕ) (f : Cell → Cell) : DataFrame :=
  ⟨df.cols, df.rows.map fun r => r.set j (f (r.getD j Cell.missing))⟩

/-- `df[col].fillna(v)`: replace the missing cells of column `j` by `v`. -/
def fillCol (df : DataFrame) (j : ℕ) (v : Cell) : DataFrame :=
  mapCol df j fun x => if x.isMissing then v else x

/-- `df.dropna(subset=[col])`: keep the rows whose cell in column `j` is present. -/
def dropMissingRows (df : DataFrame) (j : ℕ) : DataFrame :=
  ⟨df.cols, df.rows.filter fun r => !(r.getD j Cell.missing).isMissing⟩

/-- `df.drop(columns=[c])`: remove every column labelled `c`. -/
def dropColByName (df : DataFrame) (c : String) : DataFrame :=
  ⟨df.cols.filter fun p => !(p.1 == c),
   df.rows.map fun r => ((df.cols.zip r).filter fun q => !(q.1.1 == c)).map Prod.snd⟩

/-- The non-missing cells of a column. -/
def nonMissingCells (col : List Cell) : List Cell :=
  col.filter fun x => !x.isMissing

/-- The numeric values of a column (pandas numeric reductions skip NaN). -/
def nonMissingNums (col : List Cell) : List ℚ :=
  col.filterMap fun x => match x with | .num q => some q | _ => none

/-- The text values of a column (pandas object reductions skip NaN). -/
def textsOf (col : List Cell) : List String :=
  col.filterMap fun x => match x with | .text s => some s | _ => none

/-- Number of missing cells in a column (`df[col].isna().sum()`). -/
def countMissing (col : List Cell) : ℕ :=
  col.countP Cell.isMissing

/-- Bool: column `j` has no missing cell in any row. -/
def colMissingFreeB (df : DataFrame) (j : ℕ) : Bool :=
  df.rows.all fun r => !(r.getD j Cell.missing).isMissing

/-- Bool: column `j` is missing in every row. -/
def colAllMissingB (df : DataFrame) (j : ℕ) : Bool :=
  df.rows.all fun r => (r.getD j Cell.missing).isMissing

/-! ### Column statistics -/
/-- Minimum of a list of rationals (0 on the empty list, which is never used). -/
def minQ : List ℚ → ℚ
  | [] => 0
  | [x] => x
  | x :: y :: t => min x (minQ (y :: t))

/-- Maximum of a list of rationals (0 on the empty list, which is never used). -/
def maxQ : List ℚ → ℚ
  | [] => 0
  | [x] => x
  | x :: y :: t => max x (maxQ (y :: t))

/-- `Series.mean()`: arithmetic mean of the non-missing values. -/
def meanQ (l : List ℚ) : Option ℚ :=
  match l with
  | [] => none
  | _ => some ((l.foldl (· + ·) 0) / l.length)

/-- Linear interpolation between closest ranks at position `h` of the sorted
value list `s` (the pandas default `interpolation='linear'`). -/
def interpAt (s : List ℚ) (h : ℚ) : ℚ :=
  let i : ℕ := (Int.floor h).toNat
  let k : ℕ := min (i + 1) (s.length - 1)
  s.getD i 0 + (h - (i : ℚ)) * (s.getD k 0 - s.getD i 0)

/-- `Series.quantile(q)`: sort the non-missing values and interpolate linearly
at rank `q * (n - 1)`; `none` when there is no value (pandas returns NaN). -/
def quantileQ (l : List ℚ) (q : ℚ) : Option ℚ :=
  match l with
  | [] => none
  | _ => some (interpAt (l.insertionSort (· ≤ ·)) (q * ((l.length : ℚ) - 1)))

/-- `Series.median()`: the 0.5 quantile with linear interpolation. -/
def medianQ (l : List ℚ) : Option ℚ :=
  quantileQ l (1/2)

/-- Total order on cells used by pandas when sorting the result of `mode()`:
numeric cells by value, text cells lexicographically (mixed constructors never
tie inside one well-formed column). -/
def cellLeB : Cell → Cell → Bool
  | .missing, _ => true
  | .num _, .missing => false
  | .num a, .num b => decide (a ≤ b)
  | .num _, .text _ => true
  | .text _, .missing => false
  | .text _, .num _ => false
  | .text a, .text b => decide (a ≤ b)

/-- Least element of a cell list under `cellLeB` (`none` on the empty list). -/
def leastCell (l : List Cell) : Option Cell :=
  l.foldr (fun a acc => match acc with
    | none => some a
    | some b => some (if cellLeB a b then a else b)) none

/-- `Series.mode()[0]`: among the non-missing values of the column, the ones of
maximal multiplicity, sorted; `[0]` selects the least.  `none` when the column
has no non-missing value (there `mode()` is empty and `[0]` raises). -/
def modeCell (col : List Cell) : Option Cell :=
  let nm := nonMissingCells col
  let cands := nm.dedup
  let mx := (cands.map fun v => nm.count v).foldr max 0
  leastCell (cands.filter fun v => nm.count v == mx)

/-! ### clean_data.py -/
/-- The fixed per-column strategy table of `handle_missing_values`. -/
def column_strategies : List (String × String) :=
  [("Year", "drop"),
   ("Country", "drop"),
   ("Region", "mode"),
   ("Crop_Type", "mode"),
   ("Average_Temperature_C", "mean"),
   ("Total_Precipitation_mm", "mean"),
   ("CO2_Emissions_MT", "mean"),
   ("Crop_Yield_MT_per_HA", "mean"),
   ("Extreme_Weather_Events", "median"),
   ("Irrigation_Access_%", "mean"),
   ("Pesticide_Use_KG_per_HA", "mean"),
   ("Fertilizer_Use_KG_per_HA", "mean"),
   ("Soil_Health_Index", "mean"),
   ("Adaptation_Strategies", "mode"),
   ("Economic_Impact_Million_USD", "mean")]

/-- `column_strategies.get(col, strategy)`: the column-specific strategy when
the column is listed, else the caller-supplied default. -/
def resolvedStrategy (c : String) (strategy : String) : String :=
  ((column_strategies.find? fun p => p.1 == c).map Prod.snd).getD strategy

/-- `df[col].fillna(df[col].mean())`.  A column with no numeric value has mean
NaN and `fillna(NaN)` leaves it unchanged. -/
def fillMean (df : DataFrame) (j : ℕ) : DataFrame :=
  match meanQ (nonMissingNums (getCol df j)) with
  | none => df
  | some m => fillCol df j (Cell.num m)

/-- `df[col].fillna(df[col].median())`, with the same NaN convention. -/
def fillMedian (df : DataFrame) (j : ℕ) : DataFrame :=
  match medianQ (nonMissingNums (getCol df j)) with
  | none => df
  | some m => fillCol df j (Cell.num m)

/-- `df[col].fillna(df[col].mode()[0])` wrapped in the per-column `try`:
when the column has no non-missing value, `mode()[0]` raises and the handler
leaves the column as it stood. -/
def fillMode (df : DataFrame) (j : ℕ) : DataFrame :=
  match modeCell (getCol df j) with
  | none => df
  | some v => fillCol df j v

/-- One iteration of the column loop of `handle_missing_values`. -/
def handleCol (strategy : String) (df : DataFrame) (c : String) : DataFrame :=
  match colIdx df c with
  | none => df
  | some j =>
    if countMissing (getCol df j) = 0 then df
    else
      let st := resolvedStrategy c strategy
      if (df.cols.getD j ("", Dtype.object)).2 = Dtype.numeric then
        if st = "mean" then fillMean df j
        else if st = "median" then fillMedian df j
        else if st = "mode" then fillMode df j
        else if st = "drop" then dropMissingRows df j
        else fillMean df j
      else
        if st = "mode" then fillMode df j
        else if st = "drop" then dropMissingRows df j
        else fillMode df j

/-- `handle_missing_values(df, strategy, columns)`: iterate the per-column
handler over the target columns (all columns when unspecified). -/
def handle_missing_values (df : DataFrame) (strategy : String)
    (columns : Option (List String)) : DataFrame :=
  (columns.getD (df.cols.map Prod.fst)).foldl (handleCol strategy) df

/-- The `try` body of `handle_missing_values` as an `Except` computation: all
per-column failures are caught inside the loop, so the body always succeeds. -/
def handle_missing_valuesE (df : DataFrame) (strategy : String)
    (columns : Option (List String)) : Except DataFrame DataFrame :=
  Except.ok (handle_missing_values df strategy columns)

/-- First-occurrence duplicate removal with an accumulator of rows already
seen, the operational reading of `df.drop_duplicates()` (keep='first'). -/
def dedupSeen (seen : List (List Cell)) : List (List Cell) → List (List Cell)
  | [] => []
  | r :: rs => if r ∈ seen then dedupSeen seen rs else r :: dedupSeen (r :: seen) rs

/-- `remove_duplicates(df)`: `df.drop_duplicates()` keeping first occurrences. -/
def remove_duplicates (df : DataFrame) : DataFrame :=
  ⟨df.cols, dedupSeen [] df.rows⟩

/-- The `try` body of `remove_duplicates`; nothing in it can raise. -/
def remove_duplicatesE (df : DataFrame) : Except DataFrame DataFrame :=
  Except.ok (remove_duplicates df)

/-- Modelled from the spec: "removes rows that are exact duplicates across
every column (first occurrence kept, original relative order preserved for
survivors)" — keep each row and delete its later exact duplicates. -/
def dropLaterDuplicates : List (List Cell) → List (List Cell)
  | [] => []
  | r :: rs => r :: dropLaterDuplicates (rs.filter fun x => !(x == r))
termination_by l => l.length
decreasing_by
  simp only [List.length_cons]
  exact Nat.lt_succ_of_le (List.length_filter_le _ _)

/-! ### feature_engineering.py -/
/-- Outlier treatment registered for a numeric column. -/
inductive Treatment
  | iqr
  | clipT (lo hi : ℚ)
deriving DecidableEq

/-- The fixed treatment table of `process_numeric_columns`. -/
def numeric_columns_policy : List (String × Treatment) :=
  [("Year", .clipT 1990 2024),
   ("Average_Temperature_C", .iqr),
   ("Total_Precipitation_mm", .iqr),
   ("CO2_Emissions_MT", .iqr),
   ("Crop_Yield_MT_per_HA", .iqr),
   ("Extreme_Weather_Events", .clipT 0 10),
   ("Irrigation_Access_%", .clipT 0 100),
   ("Pesticide_Use_KG_per_HA", .iqr),
   ("Fertilizer_Use_KG_per_HA", .iqr),
   ("Soil_Health_Index", .clipT 0 100),
   ("Economic_Impact_Million_USD", .iqr)]

/-- `np.clip`-style clamp used by `Series.clip(lower, upper)`. -/
def clampQ (lo hi x : ℚ) : ℚ :=
  min (max x lo) hi

/-- `df[col] = df[col].clip(lower=lo, upper=hi)`; NaN cells stay NaN. -/
def applyClip (df : DataFrame) (j : ℕ) (lo hi : ℚ) : DataFrame :=
  mapCol df j fun x => match x with
    | .num q => .num (clampQ lo hi q)
    | x => x

/-- The IQR branch: Q1/Q3 by linear interpolation, bounds Q1 − 1.5·IQR and
Q3 + 1.5·IQR, then clip.  With no non-missing value both quantiles are NaN and
`clip` with NaN bounds leaves the column unchanged. -/
def applyIqr (df : DataFrame) (j : ℕ) : DataFrame :=
  let vals := nonMissingNums (getCol df j)
  match quantileQ vals (1/4), quantileQ vals (3/4) with
  | some q1, some q3 =>
    applyClip df j (q1 - 3/2 * (q3 - q1)) (q3 + 3/2 * (q3 - q1))
  | _, _ => df

/-- One iteration of the treatment loop.  Applying a numeric `clip`/`quantile`
to an `object` column raises a `TypeError`, escaping to the stage handler with
the table as it stood. -/
def pncStep (df : DataFrame) (p : String × Treatment) : Except DataFrame DataFrame :=
  match colIdx df p.1 with
  | none => .ok df
  | some j =>
    if (df.cols.getD j ("", Dtype.object)).2 = Dtype.numeric then
      .ok (match p.2 with
        | .iqr => applyIqr df j
        | .clipT lo hi => applyClip df j lo hi)
    else .error df

/-- Sequence `Except`-valued steps, stopping at the first raised exception. -/
def foldStepsE {α : Type} (step : DataFrame → α → Except DataFrame DataFrame) :
    DataFrame → List α → Except DataFrame DataFrame
  | df, [] => .ok df
  | df, x :: xs =>
    match step df x with
    | .ok d2 => foldStepsE step d2 xs
    | .error st => .error st

/-- The `try` body of `process_numeric_columns`. -/
def process_numeric_columnsE (df : DataFrame) (exclude_columns : List String) :
    Except DataFrame DataFrame :=
  foldStepsE pncStep df
    (numeric_columns_policy.filter fun p => !(exclude_columns.contains p.1))

/-- `process_numeric_columns(df, exclude_columns)` with its boundary handler. -/
def process_numeric_columns (df : DataFrame) (exclude_columns : List String) :
    DataFrame :=
  match process_numeric_columnsE df exclude_columns with
  | .ok r => r
  | .error st => st

/-- MinMax-scale column `j` over its current non-missing values:
`(x − min) / (max − min)`, the zero denominator of a constant column replaced
by 1 exactly as `sklearn`'s `_handle_zeros_in_scale` does; NaN cells stay NaN.
A column with no value at all keeps NaN everywhere. -/
def minmaxCol (df : DataFrame) (j : ℕ) : DataFrame :=
  if nonMissingNums (getCol df j) = [] then df
  else
    let vals := nonMissingNums (getCol df j)
    let mn := minQ vals
    let mx := maxQ vals
    let d := if mx - mn = 0 then 1 else mx - mn
    mapCol df j fun x => match x with
      | .num q => .num ((q - mn) / d)
      | x => x

/-- Names of the columns of numeric dtype (`select_dtypes(include=[np.number])`). -/
def numericColNames (df : DataFrame) : List String :=
  (df.cols.filter fun p => p.2 == Dtype.numeric).map Prod.fst

/-- The column selection performed by `normalize_features`: requested (or all
numeric) columns, minus exclusions, minus the ones not present. -/
def nfSelection (df : DataFrame) (columns : Option (List String))
    (exclude_columns : List String) : List String :=
  let cols0 := columns.getD (numericColNames df)
  let cols1 := cols0.filter fun c => !(exclude_columns.contains c)
  cols1.filter fun c => (colIdx df c).isSome

/-- One column of the joint `fit_transform`: scale the named column. -/
def nfStep (d : DataFrame) (c : String) : DataFrame :=
  match colIdx d c with
  | some j => minmaxCol d j
  | none => d

/-- The `try` body of `normalize_features`.  `MinMaxScaler.fit_transform`
raises when a selected column is non-numeric or when the frame has no row,
escaping to the stage handler with the (still unmodified) copy. -/
def normalize_featuresE (df : DataFrame) (columns : Option (List String))
    (exclude_columns : List String) : Except DataFrame DataFrame :=
  let sel := nfSelection df columns exclude_columns
  if sel.isEmpty then .ok df
  else
    if sel.all (fun c => match colIdx df c with
        | some j => (df.cols.getD j ("", Dtype.object)).2 == Dtype.numeric
        | none => false) && !df.rows.isEmpty then
      .ok (sel.foldl nfStep df)
    else .error df

/-- `normalize_features(df, columns, exclude_columns)` with its handler. -/
def normalize_features (df : DataFrame) (columns : Option (List String))
    (exclude_columns : List String) : DataFrame :=
  match normalize_featuresE df columns exclude_columns with
  | .ok r => r
  | .error st => st

/-- Distinct non-missing values of an object column, in encounter order of last
occurrence.  Only the underlying set matters to any property proved below;
pandas emits `get_dummies` indicator columns sorted by value, a reordering of
the same set. -/
def distinctTexts (col : List Cell) : List String :=
  (textsOf col).dedup

/-- The multiplicity of the text value `v` in the column (`value_counts`). -/
def countText (col : List Cell) (v : String) : ℕ :=
  (textsOf col).count v

/-- `value_counts().nlargest(k).index`: the `k` most frequent values.  The
order among equal counts is a pandas implementation detail; a stable sort by
descending count over the distinct values models it. -/
def topCategories (col : List Cell) (k : ℕ) : List String :=
  (((distinctTexts col).map fun v => (v, countText col v)).insertionSort
      (fun a b => a.2 ≥ b.2)).take k |>.map Prod.fst

/-- `df[col].where(df[col].isin(top), 'Other')`: every cell whose value is not
among the kept categories — including a NaN cell, for which `isin` is False —
becomes the literal text `"Other"`. -/
def remapCell (top : List String) (x : Cell) : Cell :=
  if (match x with | .text s => top.contains s | _ => false) then x
  else .text "Other"

/-- Append columns derived cellwise from column `j` (the row-aligned
`pd.concat([df, dummies], axis=1)`, where every dummy column is a pointwise
function of the source column; `get_dummies` yields bool, i.e. numeric, dtype). -/
def appendDerivedCols (df : DataFrame) (j : ℕ)
    (gs : List (String × (Cell → Cell))) : DataFrame :=
  ⟨df.cols ++ gs.map fun p => (p.1, Dtype.numeric),
   df.rows.map fun r => r ++ gs.map fun p => p.2 (r.getD j Cell.missing)⟩

/-- Indicator function of one category: 1 when the cell equals the category,
else 0 (also 0 on NaN, which `get_dummies` ignores). -/
def indicatorOf (v : String) (x : Cell) : Cell :=
  if x == Cell.text v then Cell.num 1 else Cell.num 0

/-- The dummy columns generated for source column `c` whose post-remap cells
are `col`: one indicator per distinct value, plus the all-False
`f"{col}_Other"` column when values were collapsed but `'Other'` does not
occur in the column. -/
def dummyColsFor (c : String) (col : List Cell) (collapsed : Bool) :
    List (String × (Cell → Cell)) :=
  let cats := distinctTexts col
  let base := cats.map fun v => (c ++ "_" ++ v, indicatorOf v)
  if collapsed && !(cats.contains "Other") then
    base ++ [(c ++ "_Other", fun _ => Cell.num 0)]
  else base

/-- The vocabulary cap: when the column has more distinct values than
`max_categories`, keep the `max_categories - 1` most frequent and remap every
other cell — including NaN, for which `isin` is False — to `"Other"`. -/
def dummyRemap (df : DataFrame) (j : ℕ) (max_categories : ℕ) : DataFrame :=
  if (distinctTexts (getCol df j)).length > max_categories then
    mapCol df j (remapCell (topCategories (getCol df j) (max_categories - 1)))
  else df

/-- One iteration of the column loop of `create_dummy_variables`.  A column
name that disappeared from the frame (only possible via a duplicated selection)
raises a `KeyError` to the stage handler. -/
def dummyStep (max_categories : ℕ) (keep_original : Bool) (df : DataFrame)
    (c : String) : Except DataFrame DataFrame :=
  match colIdx df c with
  | none => .error df
  | some j =>
    if (df.cols.getD j ("", Dtype.object)).2 = Dtype.numeric then .ok df
    else
      let df1 := dummyRemap df j max_categories
      let df2 := appendDerivedCols df1 j
        (dummyColsFor c (getCol df1 j)
          ((distinctTexts (getCol df j)).length > max_categories))
      .ok (if keep_original then df2 else dropColByName df2 c)

/-- The `try` body of `create_dummy_variables`. -/
def create_dummy_variablesE (df : DataFrame) (columns : Option (List String))
    (max_categories : ℕ) (keep_original : Bool) : Except DataFrame DataFrame :=
  let cols0 := columns.getD ["Country", "Region", "Crop_Type", "Adaptation_Strategies"]
  let cols1 := cols0.filter fun c => (colIdx df c).isSome
  if cols1.isEmpty then .ok df
  else foldStepsE (dummyStep max_categories keep_original) df cols1

/-- `create_dummy_variables(df, columns, max_categories, keep_original)`. -/
def create_dummy_variables (df : DataFrame) (columns : Option (List String))
    (max_categories : ℕ) (keep_original : Bool) : DataFrame :=
  match create_dummy_variablesE df columns max_categories keep_original with
  | .ok r => r
  | .error st => st

/-! ### load_data.py -/
/-- The raw text table produced by `pd.read_csv` before type coercion. -/
structure RawTable where
  cols : List String
  rows : List (List String)
deriving DecidableEq

/-- The default expected-numeric column list of the loader. -/
def default_numeric : List String :=
  ["Year", "Average_Temperature_C", "Total_Precipitation_mm",
   "CO2_Emissions_MT", "Crop_Yield_MT_per_HA", "Extreme_Weather_Events",
   "Irrigation_Access_%", "Pesticide_Use_KG_per_HA", "Fertilizer_Use_KG_per_HA",
   "Soil_Health_Index", "Economic_Impact_Million_USD"]

/-- Convert one raw cell of a declared numeric column:
`pd.to_numeric(.., errors='coerce')` yields the parsed number or NaN.  The
numeric parser itself is a pandas internal and is a parameter. -/
def coerceCell (parse : String → Option ℚ) (s : String) : Cell :=
  match parse s with
  | some q => Cell.num q
  | none => Cell.missing

/-- `load_csv(file_path, numeric_columns)`.  The filesystem read is external:
its outcome (`pd.read_csv` returning a raw table, or raising) is the `source`
argument; on a read failure the bare `raise` re-raises the original error.
Date-column parsing is orthogonal to every property below and is omitted. -/
def load_csv (parse : String → Option ℚ) (source : Except String RawTable)
    (numeric_columns : Option (List String)) : Except String DataFrame :=
  match source with
  | .error e => .error e
  | .ok raw =>
    let ncols := numeric_columns.getD default_numeric
    .ok ⟨raw.cols.map fun c =>
           (c, if ncols.contains c then Dtype.numeric else Dtype.object),
         raw.rows.map fun r =>
           (raw.cols.zip r).map fun p =>
             if ncols.contains p.1 then coerceCell parse p.2 else Cell.text p.2⟩

/-! ### split_data.py -/
/-- A Python argument that may or may not be a `DataFrame` (`isinstance`). -/
inductive PyVal
  | table (df : DataFrame)
  | other

/-- `split_train_test(df, target_column, test_size)`.  `none` models the
`(None, None, None, None)` return.  `perm` is the row permutation drawn by
`train_test_split(random_state=42)`, an external RNG artefact; sklearn takes
`ceil(n * test_size)` test rows from its front and the rest as training rows,
and raises (caught, yielding the Nones) when either part is empty. -/
def split_train_test (input : PyVal) (target_column : String) (test_size : ℚ)
    (perm : List ℕ) : Option (DataFrame × DataFrame × List Cell × List Cell) :=
  match input with
  | .other => none
  | .table df =>
    match colIdx df target_column with
    | none => none
    | some j =>
      if 0 < test_size ∧ test_size < 1 then
        let X := dropColByName df target_column
        let y := getCol df j
        let n := df.rows.length
        let nTest := (Int.ceil (test_size * n)).toNat
        if nTest = 0 ∨ n - nTest = 0 then none
        else
          some (⟨X.cols, (perm.drop nTest).filterMap fun i => X.rows.get? i⟩,
                ⟨X.cols, (perm.take nTest).filterMap fun i => X.rows.get? i⟩,
                (perm.drop nTest).filterMap fun i => y.get? i,
                (perm.take nTest).filterMap fun i => y.get? i)
      else none

/-- Distinct cells in first-encounter order. -/
def distinctFirst : List Cell → List Cell
  | [] => []
  | x :: xs => x :: distinctFirst (xs.filter fun y => !(y == x))

termination_by l => l.length
decreasing_by
  simp only [List.length_cons]
  exact Nat.lt_succ_of_le (List.length_filter_le _ _)
/-- Modelled from the spec: "replace with the most frequent non-missing value
(tie-break: first encountered in the source's natural ordering of distinct
values)" — the first distinct value, in encounter order, of maximal
multiplicity. -/
def firstEncounterMode (col : List Cell) : Option Cell :=
  let nm := nonMissingCells col
  let cands := distinctFirst nm
  let mx := (cands.map fun v => nm.count v).foldr max 0
  cands.find? fun v => nm.count v == mx

/-- A toy numeric parser standing in for the pandas numeric conversion. -/
def parseW : String → Option ℚ :=
  fun s => (s.toNat?).map fun n => (n : ℚ)

/-- A concrete raw source with one well-formed and one malformed numeric cell. -/
def rawW : RawTable :=
  ⟨["Year", "Region"], [["2000", "A"], ["oops", "B"]]⟩

/-- A two-row table used to exercise the successful split path. -/
def dfW10 : DataFrame :=
  ⟨[("x", Dtype.numeric), ("y", Dtype.numeric)],
   [[Cell.num 1, Cell.num 2], [Cell.num 3, Cell.num 4]]⟩

/-- A one-row table: target present, `test_size` in range, yet the code yields
the Nones because the training partition would be empty. -/
def dfX10 : DataFrame :=
  ⟨[("x", Dtype.numeric), ("y", Dtype.numeric)], [[Cell.num 1, Cell.num 2]]⟩

/-- The `Region` column [B, A, B, A, NaN]: A and B tie at multiplicity two and
B is encountered first. -/
def dfX2 : DataFrame :=
  ⟨[("Region", Dtype.object)],
   [[Cell.text "B"], [Cell.text "A"], [Cell.text "B"], [Cell.text "A"],
    [Cell.missing]]⟩

/-- A table whose `Year` column (strategy `drop`) has a missing first row and
whose `Region` column is missing in a surviving row. -/
def dfX6 : DataFrame :=
  ⟨[("Year", Dtype.numeric), ("Region", Dtype.object)],
   [[Cell.missing, Cell.text "x"],
    [Cell.num 2000, Cell.missing],
    [Cell.num 2001, Cell.text "x"]]⟩

/-- A well-formed table whose `Region` column is entirely missing. -/
def dfX1 : DataFrame :=
  ⟨[("Region", Dtype.object)], [[Cell.missing]]⟩

/-! ### Lemmas for normalize_features -/
/-- Every numeric value of the column is zero. -/
def allZeroNums (col : List Cell) : Prop :=
  ∀ q ∈ nonMissingNums col, q = 0

/-- A column in min-max normal form: no values, or min 0 and max 1, or all
values zero (the image of a constant column). -/
def normalCol (col : List Cell) : Prop :=
  nonMissingNums col = [] ∨
    (minQ (nonMissingNums col) = 0 ∧ maxQ (nonMissingNums col) = 1) ∨
    allZeroNums col

/-- A numeric column with one value and one NaN: normalization leaves the NaN
in place. -/
def dfX4 : DataFrame :=
  ⟨[("Average_Temperature_C", Dtype.numeric)], [[Cell.num 5], [Cell.missing]]⟩

/-- The three-value column [10, 20, 30] of the spec's end-to-end example. -/
def dfW4 : DataFrame :=
  ⟨[("Average_Temperature_C", Dtype.numeric)],
   [[Cell.num 10], [Cell.num 20], [Cell.num 30]]⟩

/-- The IQR clip expressed on a single column's cell list. -/
def clampColCells (lo hi : ℚ) (col : List Cell) : List Cell :=
  col.map fun x => match x with
    | Cell.num q => Cell.num (clampQ lo hi q)
    | x => x

/-- The full IQR treatment on one column's cell list. -/
def applyIqrColCells (col : List Cell) : List Cell :=
  match quantileQ (nonMissingNums col) (1/4),
      quantileQ (nonMissingNums col) (3/4) with
  | some q1, some q3 =>
    clampColCells (q1 - 3/2 * (q3 - q1)) (q3 + 3/2 * (q3 - q1)) col
  | _, _ => col

/-- A numeric `iqr`-treated column holding one value and one NaN. -/
def dfX3 : DataFrame :=
  ⟨[("Average_Temperature_C", Dtype.numeric)], [[Cell.num 1], [Cell.missing]]⟩

/-- The spec's end-to-end IQR example column [1, 2, 3, 4, 1000]. -/
def dfW3 : DataFrame :=
  ⟨[("Average_Temperature_C", Dtype.numeric)],
   [[Cell.num 1], [Cell.num 2], [Cell.num 3], [Cell.num 4], [Cell.num 1000]]⟩

/-! ### Lemmas for create_dummy_variables -/
/-- The last `k` cells of a row. -/
def rowTail (r : List Cell) (k : ℕ) : List Cell :=
  r.drop (r.length - k)

def dfW5 : DataFrame :=
  { cols := [("Region", Dtype.object), ("Year", Dtype.numeric)],
    rows := [[Cell.text "A", Cell.num 1], [Cell.missing, Cell.num 2],
             [Cell.text "B", Cell.num 3]] }

theorem getD_set_self {α : Type*} (r : List α) (j : ℕ) (v d : α) (h : j < r.length) :
    (r.set j v).getD j d = v := by
  induction r generalizing j with
  | nil => simp at h
  | cons a t ih =>
    cases j with
    | zero => simp [List.set]
    | succ j => simpa [List.set] using ih j (by simpa using h)

theorem getD_set_ne {α : Type*} (r : List α) (i j : ℕ) (hij : i ≠ j) (v d : α) :
    (r.set i v).getD j d = r.getD j d := by
  induction r generalizing i j with
  | nil => simp [List.set]
  | cons a t ih =>
    cases i with
    | zero =>
      cases j with
      | zero => exact absurd rfl hij
      | succ j => simp [List.set]
    | succ i =>
      cases j with
      | zero => simp [List.set]
      | succ j => simpa [List.set] using ih i j (fun h => hij (by omega))

theorem set_getD_self {α : Type*} (r : List α) (j : ℕ) (d : α) :
    r.set j (r.getD j d) = r := by
  induction r generalizing j with
  | nil => simp
  | cons a t ih =>
    cases j with
    | zero => simp
    | succ j => simpa using ih j

theorem getD_map_of_lt {α : Type*} {β : Type*} (f : α → β) (l : List α) (j : ℕ) (d : α) (e : β)
    (h : j < l.length) : (l.map f).getD j e = f (l.getD j d) := by
  rw [List.getD_eq_getElem _ _ (by simpa using h), List.getD_eq_getElem _ _ h]
  simp

/-! ### Basic lemmas about the statistics -/
theorem minQ_le_mem (l : List ℚ) (a : ℚ) (ha : a ∈ l) : minQ l ≤ a := by
  induction l with
  | nil => simp at ha
  | cons x t ih =>
    cases t with
    | nil => simp at ha; simp [minQ, ha]
    | cons y s =>
      rcases List.mem_cons.mp ha with h | h
      · simp [minQ, h]
      · simp only [minQ]
        exact le_trans (min_le_right _ _) (ih h)

theorem mem_le_maxQ (l : List ℚ) (a : ℚ) (ha : a ∈ l) : a ≤ maxQ l := by
  induction l with
  | nil => simp at ha
  | cons x t ih =>
    cases t with
    | nil => simp at ha; simp [maxQ, ha]
    | cons y s =>
      rcases List.mem_cons.mp ha with h | h
      · simp [maxQ, h]
      · simp only [maxQ]
        exact le_trans (ih h) (le_max_right _ _)

theorem minQ_mem (l : List ℚ) (h : l ≠ []) : minQ l ∈ l := by
  induction l with
  | nil => exact absurd rfl h
  | cons x t ih =>
    cases t with
    | nil => simp [minQ]
    | cons y s =>
      simp only [minQ]
      rcases le_total x (minQ (y :: s)) with hle | hle
      · simp [min_eq_left hle]
      · rw [min_eq_right hle]
        exact List.mem_cons_of_mem _ (ih (by simp))

theorem maxQ_mem (l : List ℚ) (h : l ≠ []) : maxQ l ∈ l := by
  induction l with
  | nil => exact absurd rfl h
  | cons x t ih =>
    cases t with
    | nil => simp [maxQ]
    | cons y s =>
      simp only [maxQ]
      rcases le_total x (maxQ (y :: s)) with hle | hle
      · rw [max_eq_right hle]
        exact List.mem_cons_of_mem _ (ih (by simp))
      · simp [max_eq_left hle]

theorem minQ_map_mono (f : ℚ → ℚ) (hf : Monotone f) (l : List ℚ) (h : l ≠ []) :
    minQ (l.map f) = f (minQ l) := by
  induction l with
  | nil => exact absurd rfl h
  | cons x t ih =>
    cases t with
    | nil => simp [minQ]
    | cons y s =>
      have ih2 := ih (by simp)
      simp only [List.map_cons] at ih2
      simp only [List.map_cons, minQ]
      rw [ih2]
      exact (hf.map_min).symm

theorem maxQ_map_mono (f : ℚ → ℚ) (hf : Monotone f) (l : List ℚ) (h : l ≠ []) :
    maxQ (l.map f) = f (maxQ l) := by
  induction l with
  | nil => exact absurd rfl h
  | cons x t ih =>
    cases t with
    | nil => simp [maxQ]
    | cons y s =>
      have ih2 := ih (by simp)
      simp only [List.map_cons] at ih2
      simp only [List.map_cons, maxQ]
      rw [ih2]
      exact (hf.map_max).symm

theorem cellLeB_refl (a : Cell) : cellLeB a a = true := by
  cases a <;> simp [cellLeB]

theorem cellLeB_total (a b : Cell) : cellLeB a b = true ∨ cellLeB b a = true := by
  cases a <;> cases b <;> simp [cellLeB] <;> exact le_total _ _

theorem cellLeB_trans (a b c : Cell) (hab : cellLeB a b = true)
    (hbc : cellLeB b c = true) : cellLeB a c = true := by
  cases a <;> cases b <;> cases c <;> simp_all [cellLeB] <;> exact le_trans hab hbc

theorem leastCell_eq_none (l : List Cell) : leastCell l = none ↔ l = [] := by
  cases l with
  | nil => simp [leastCell]
  | cons a t =>
    simp only [leastCell, List.foldr_cons]
    constructor
    · intro h
      cases hfold : List.foldr (fun a acc => match acc with
        | none => some a
        | some b => some (if cellLeB a b then a else b)) none t <;> simp [hfold] at h
    · intro h; cases h

theorem leastCell_spec (l : List Cell) (v : Cell) (hv : leastCell l = some v) :
    v ∈ l ∧ ∀ w ∈ l, cellLeB v w = true := by
  induction l generalizing v with
  | nil => simp [leastCell] at hv
  | cons a t ih =>
    simp only [leastCell, List.foldr_cons] at hv
    cases hfold : leastCell t with
    | none =>
      have ht : t = [] := (leastCell_eq_none t).mp hfold
      subst ht
      simp [leastCell] at hfold hv ⊢
      simp [← hv, cellLeB_refl]
    | some b =>
      have hb := ih b hfold
      simp only [leastCell] at hfold
      rw [hfold] at hv
      simp only [Option.some.injEq] at hv
      by_cases hab : cellLeB a b = true
      · simp [hab] at hv
        subst hv
        refine ⟨List.mem_cons_self _ _, ?_⟩
        intro w hw
        rcases List.mem_cons.mp hw with h | h
        · subst h; exact cellLeB_refl _
        · exact cellLeB_trans a b w hab (hb.2 w h)
      · simp [hab] at hv
        subst hv
        refine ⟨List.mem_cons_of_mem _ hb.1, ?_⟩
        intro w hw
        rcases List.mem_cons.mp hw with h | h
        · subst h
          rcases cellLeB_total w b with h2 | h2
          · exact absurd h2 hab
          · exact h2
        · exact hb.2 w h

theorem foldr_max_ge (l : List ℕ) (a : ℕ) (ha : a ∈ l) : a ≤ l.foldr max 0 := by
  induction l with
  | nil => simp at ha
  | cons x t ih =>
    rcases List.mem_cons.mp ha with h | h
    · subst h; exact le_max_left _ _
    · exact le_trans (ih h) (le_max_right _ _)

theorem foldr_max_mem (l : List ℕ) (h : l ≠ []) :
    l.foldr max 0 ∈ l ∨ l.foldr max 0 = 0 := by
  induction l with
  | nil => exact absurd rfl h
  | cons x t ih =>
    cases t with
    | nil => left; simp
    | cons y s =>
      have hfold : (x :: y :: s).foldr max 0 = max x ((y :: s).foldr max 0) := rfl
      rcases le_total x ((y :: s).foldr max 0) with hle | hle
      · rcases ih (by simp) with hm | hz
        · left
          rw [hfold, max_eq_right hle]
          exact List.mem_cons_of_mem _ hm
        · right
          rw [hfold, max_eq_right hle, hz]
      · left
        rw [hfold, max_eq_left hle]
        exact List.mem_cons_self _ _

/-- Characterization of `modeCell`: it returns a non-missing value of the
column of maximal multiplicity, least among the tied candidates. -/
theorem modeCell_spec (col : List Cell) (v : Cell) (hv : modeCell col = some v) :
    v ∈ nonMissingCells col ∧
      (∀ w ∈ nonMissingCells col,
        (nonMissingCells col).count w ≤ (nonMissingCells col).count v) ∧
      (∀ w ∈ nonMissingCells col,
        (nonMissingCells col).count w = (nonMissingCells col).count v →
          cellLeB v w = true) := by
  classical
  set nm := nonMissingCells col with hnm
  set cands := nm.dedup with hcands
  set mx := (cands.map fun v => nm.count v).foldr max 0 with hmx
  have hspec := leastCell_spec _ v hv
  have hvfilter := hspec.1
  have hvmem : v ∈ cands := (List.mem_filter.mp hvfilter).1
  have hvcount : nm.count v = mx := by
    have := (List.mem_filter.mp hvfilter).2
    simpa using this
  refine ⟨List.mem_dedup.mp hvmem, ?_, ?_⟩
  · intro w hw
    have hwc : w ∈ cands := List.mem_dedup.mpr hw
    have : nm.count w ≤ mx :=
      foldr_max_ge _ _ (List.mem_map.mpr ⟨w, hwc, rfl⟩)
    omega
  · intro w hw hcw
    have hwc : w ∈ cands := List.mem_dedup.mpr hw
    have hwfilter : w ∈ cands.filter fun u => nm.count u == mx := by
      refine List.mem_filter.mpr ⟨hwc, ?_⟩
      simp [hcw, hvcount]
    exact hspec.2 w hwfilter

/-- `modeCell` fails exactly on columns with no non-missing value. -/
theorem modeCell_eq_none (col : List Cell) :
    modeCell col = none ↔ nonMissingCells col = [] := by
  constructor
  · intro h
    have hfilter := (leastCell_eq_none _).mp h
    by_contra hne
    have hcne : (nonMissingCells col).dedup ≠ [] := by
      intro hd
      exact hne ((List.dedup_eq_nil _).mp hd)
    obtain ⟨a, t, ht⟩ := List.exists_cons_of_ne_nil hcne
    set nm := nonMissingCells col with hnm
    set mx := ((nm.dedup).map fun v => nm.count v).foldr max 0 with hmx
    have ha : a ∈ nm.dedup := by rw [ht]; exact List.mem_cons_self _ _
    have hamem : a ∈ nm := List.mem_dedup.mp ha
    have hale : nm.count a ≤ mx :=
      foldr_max_ge _ _ (List.mem_map.mpr ⟨a, ha, rfl⟩)
    have hapos : 0 < nm.count a := List.count_pos_iff.mpr hamem
    have hmxmem := foldr_max_mem ((nm.dedup).map fun v => nm.count v)
      (by rw [ht]; simp)
    rcases hmxmem with hm | hz
    · obtain ⟨b, hb, hbc⟩ := List.mem_map.mp hm
      have hbf : b ∈ nm.dedup.filter fun u => nm.count u == mx := by
        refine List.mem_filter.mpr ⟨hb, ?_⟩
        simp [hbc, ← hmx]
      rw [hfilter] at hbf
      simp at hbf
    · rw [← hmx] at hz
      omega
  · intro h
    simp [modeCell, h, leastCell, List.dedup_nil]

/-! ### Lemmas about duplicate removal -/
theorem dedupSeen_eq_dropLater (l : List (List Cell)) :
    ∀ seen, dedupSeen seen l = dropLaterDuplicates (l.filter fun x => !(x ∈ seen : Bool)) := by
  induction l with
  | nil => intro seen; simp [dedupSeen, dropLaterDuplicates]
  | cons r rs ih =>
    intro seen
    by_cases hmem : r ∈ seen
    · simp only [dedupSeen, if_pos hmem, List.filter_cons]
      have : (!decide (r ∈ seen)) = false := by simp [hmem]
      rw [this]
      simp only [Bool.false_eq_true, reduceIte]
      exact ih seen
    · simp only [dedupSeen, if_neg hmem, List.filter_cons]
      have : (!decide (r ∈ seen)) = true := by simp [hmem]
      rw [this]
      simp only [if_pos trivial]
      rw [dropLaterDuplicates]
      congr 1
      rw [ih (r :: seen)]
      congr 1
      rw [List.filter_filter]
      apply List.filter_congr
      intro x _
      by_cases hx : x = r
      · subst hx; simp
      · simp [hx, List.mem_cons]

theorem mem_dropLaterDuplicates (l : List (List Cell)) (a : List Cell) :
    a ∈ dropLaterDuplicates l ↔ a ∈ l := by
  induction l using dropLaterDuplicates.induct with
  | case1 => simp [dropLaterDuplicates]
  | case2 r rs ih =>
    rw [dropLaterDuplicates]
    simp only [List.mem_cons, ih, List.mem_filter]
    constructor
    · rintro (h | ⟨h, _⟩)
      · exact Or.inl h
      · exact Or.inr h
    · rintro (h | h)
      · exact Or.inl h
      · by_cases hr : a = r
        · exact Or.inl hr
        · exact Or.inr ⟨h, by simp [hr]⟩

theorem dropLaterDuplicates_sublist (l : List (List Cell)) :
    (dropLaterDuplicates l).Sublist l := by
  induction l using dropLaterDuplicates.induct with
  | case1 => simp [dropLaterDuplicates]
  | case2 r rs ih =>
    rw [dropLaterDuplicates]
    exact List.Sublist.cons₂ r (ih.trans (List.filter_sublist _))

theorem dropLaterDuplicates_nodup (l : List (List Cell)) :
    (dropLaterDuplicates l).Nodup := by
  induction l using dropLaterDuplicates.induct with
  | case1 => simp [dropLaterDuplicates]
  | case2 r rs ih =>
    rw [dropLaterDuplicates]
    refine List.nodup_cons.mpr ⟨?_, ih⟩
    intro hmem
    have := (mem_dropLaterDuplicates _ _).mp hmem
    simp at this

theorem dropLaterDuplicates_of_nodup (l : List (List Cell)) (h : l.Nodup) :
    dropLaterDuplicates l = l := by
  induction l using dropLaterDuplicates.induct with
  | case1 => simp [dropLaterDuplicates]
  | case2 r rs ih =>
    rw [dropLaterDuplicates]
    have hr : r ∉ rs := (List.nodup_cons.mp h).1
    have hfil : rs.filter (fun x => !(x == r)) = rs := by
      apply List.filter_eq_self.mpr
      intro x hx
      simp only [Bool.not_eq_eq_eq_not, Bool.not_true, beq_eq_false_iff_ne]
      intro hxr
      exact hr (hxr ▸ hx)
    rw [hfil] at ih ⊢
    rw [ih (List.nodup_cons.mp h).2]

theorem dropLaterDuplicates_idem (l : List (List Cell)) :
    dropLaterDuplicates (dropLaterDuplicates l) = dropLaterDuplicates l :=
  dropLaterDuplicates_of_nodup _ (dropLaterDuplicates_nodup l)

/-! ### Frame-level helper lemmas -/
theorem mapCol_cols (df : DataFrame) (j : ℕ) (f : Cell → Cell) :
    (mapCol df j f).cols = df.cols := rfl

theorem dropMissingRows_cols (df : DataFrame) (j : ℕ) :
    (dropMissingRows df j).cols = df.cols := rfl

theorem getCol_mapCol_self (df : DataFrame) (j : ℕ) (f : Cell → Cell)
    (hlen : ∀ r ∈ df.rows, j < r.length) :
    getCol (mapCol df j f) j = (getCol df j).map f := by
  simp only [getCol, mapCol, List.map_map]
  apply List.map_congr_left
  intro r hr
  simp only [Function.comp_apply]
  exact getD_set_self _ _ _ _ (hlen r hr)

theorem getCol_mapCol_self_of_fix (df : DataFrame) (j : ℕ) (f : Cell → Cell)
    (hfix : f Cell.missing = Cell.missing) :
    getCol (mapCol df j f) j = (getCol df j).map f := by
  simp only [getCol, mapCol, List.map_map]
  apply List.map_congr_left
  intro r _
  simp only [Function.comp_apply]
  by_cases h : j < r.length
  · exact getD_set_self _ _ _ _ h
  · push_neg at h
    rw [List.set_eq_of_length_le h, List.getD_eq_default _ _ h]
    exact hfix.symm

theorem getCol_mapCol_ne (df : DataFrame) (i j : ℕ) (hij : i ≠ j)
    (f : Cell → Cell) : getCol (mapCol df i f) j = getCol df j := by
  simp only [getCol, mapCol, List.map_map]
  apply List.map_congr_left
  intro r _
  simp only [Function.comp_apply]
  exact getD_set_ne _ _ _ hij _ _

/-- The name sitting at a resolved column index. -/
theorem colIdx_name (df : DataFrame) (c : String) (j : ℕ)
    (h : colIdx df c = some j) :
    j < df.cols.length ∧ (df.cols.getD j ("", Dtype.object)).1 = c := by
  have hlt := List.findIdx?_eq_some_iff_findIdx_eq.mp h
  obtain ⟨hjlt, _⟩ := hlt
  refine ⟨hjlt, ?_⟩
  have := List.findIdx?_eq_some_iff_getElem.mp h
  obtain ⟨hlt2, hp, _⟩ := this
  have := of_decide_eq_true hp
  rw [List.getD_eq_getElem _ _ hjlt]
  exact eq_of_beq hp

/-- Two distinct names never resolve to the same column index. -/
theorem colIdx_inj (df : DataFrame) (a b : String) (i j : ℕ)
    (ha : colIdx df a = some i) (hb : colIdx df b = some j) (hab : a ≠ b) :
    i ≠ j := by
  intro hij
  subst hij
  have h1 := (colIdx_name df a i ha).2
  have h2 := (colIdx_name df b i hb).2
  exact hab (h1 ▸ h2 ▸ rfl)

theorem dedupSeen_nil (l : List (List Cell)) :
    dedupSeen [] l = dropLaterDuplicates l := by
  rw [dedupSeen_eq_dropLater l []]
  congr 1
  apply List.filter_eq_self.mpr
  intro x _
  simp

/-! ### Claim theorems -/
/-- C7: `remove_duplicates` deletes exactly the rows that are exact duplicates
of an earlier row across every column — its row list equals the one obtained by
keeping each row and deleting its later exact duplicates — so the first
occurrence is kept and the relative order of survivors is preserved (the output
is a duplicate-free sublist with the same members); and it is idempotent. -/
theorem C7_remove_duplicates_spec :
    ∀ df : DataFrame,
      remove_duplicates df = ⟨df.cols, dropLaterDuplicates df.rows⟩ ∧
      (remove_duplicates df).rows.Sublist df.rows ∧
      (∀ r, r ∈ (remove_duplicates df).rows ↔ r ∈ df.rows) ∧
      (remove_duplicates df).rows.Nodup ∧
      remove_duplicates (remove_duplicates df) = remove_duplicates df := by
  intro df
  have h1 : remove_duplicates df = ⟨df.cols, dropLaterDuplicates df.rows⟩ := by
    simp [remove_duplicates, dedupSeen_nil]
  refine ⟨h1, ?_, ?_, ?_, ?_⟩
  · rw [h1]; exact dropLaterDuplicates_sublist _
  · intro r; rw [h1]; exact mem_dropLaterDuplicates _ _
  · rw [h1]; exact dropLaterDuplicates_nodup _
  · rw [h1]
    simp [remove_duplicates, dedupSeen_nil]
    exact dropLaterDuplicates_idem _

/-- C8: no stage function lets an exception escape its boundary.  Each of the
five stage functions evaluates to a plain table that is exactly the payload of
its `try`-body: the transformed table when the body succeeds, and the table as
it stood at the raise point when the body fails (the `except: return df`
handler). -/
theorem C8_stage_boundaries :
    (∀ df s cols, handle_missing_valuesE df s cols =
        Except.ok (handle_missing_values df s cols)) ∧
    (∀ df, remove_duplicatesE df = Except.ok (remove_duplicates df)) ∧
    (∀ df ex, process_numeric_columnsE df ex =
        Except.ok (process_numeric_columns df ex) ∨
      process_numeric_columnsE df ex =
        Except.error (process_numeric_columns df ex)) ∧
    (∀ df cols ex, normalize_featuresE df cols ex =
        Except.ok (normalize_features df cols ex) ∨
      normalize_featuresE df cols ex =
        Except.error (normalize_features df cols ex)) ∧
    (∀ df cols mc ko, create_dummy_variablesE df cols mc ko =
        Except.ok (create_dummy_variables df cols mc ko) ∨
      create_dummy_variablesE df cols mc ko =
        Except.error (create_dummy_variables df cols mc ko)) := by
  refine ⟨fun _ _ _ => rfl, fun _ => rfl, ?_, ?_, ?_⟩
  · intro df ex
    cases h : process_numeric_columnsE df ex with
    | ok r => left; simp [process_numeric_columns, h]
    | error st => right; simp [process_numeric_columns, h]
  · intro df cols ex
    cases h : normalize_featuresE df cols ex with
    | ok r => left; simp [normalize_features, h]
    | error st => right; simp [normalize_features, h]
  · intro df cols mc ko
    cases h : create_dummy_variablesE df cols mc ko with
    | ok r => left; simp [create_dummy_variables, h]
    | error st => right; simp [create_dummy_variables, h]

theorem getD_mem_of_lt {α : Type*} (l : List α) (i : ℕ) (d : α)
    (h : i < l.length) : l.getD i d ∈ l := by
  rw [List.getD_eq_getElem _ _ h]
  exact List.getElem_mem _

/-- C9: with a readable source, the loader converts every cell of a declared
numeric column through `to_numeric(errors='coerce')` — each such output cell is
the parsed number or the missing marker, never an error — while a failed read
propagates the original error unchanged. -/
theorem C9_load_csv (parse : String → Option ℚ) (raw : RawTable)
    (ncl : Option (List String))
    (hwf : ∀ r ∈ raw.rows, r.length = raw.cols.length) :
    (∃ df, load_csv parse (Except.ok raw) ncl = Except.ok df ∧
      df.rows.length = raw.rows.length ∧
      (∀ i j, i < raw.rows.length → j < raw.cols.length →
        (ncl.getD default_numeric).contains (raw.cols.getD j "") = true →
          (df.rows.getD i []).getD j Cell.missing =
            coerceCell parse ((raw.rows.getD i []).getD j "")) ∧
      (∀ s, (∃ q, coerceCell parse s = Cell.num q) ∨
        coerceCell parse s = Cell.missing)) ∧
    (∀ e, load_csv parse (Except.error e) ncl = Except.error e) := by
  constructor
  · refine ⟨_, rfl, by simp [load_csv], ?_, ?_⟩
    · intro i j hi hj hcon
      have hrow : i < raw.rows.length := hi
      simp only [load_csv]
      rw [getD_map_of_lt _ _ _ [] _ hrow]
      have hlen : j < ((raw.cols.zip (raw.rows.getD i []))).length := by
        rw [List.length_zip]
        have := hwf (raw.rows.getD i []) (getD_mem_of_lt raw.rows i [] hrow)
        omega
      rw [getD_map_of_lt _ _ _ ("", "") _ hlen]
      rw [List.getD_eq_getElem _ _ hlen, List.getElem_zip]
      have hj2 : j < (raw.rows.getD i []).length := by
        have := hwf (raw.rows.getD i []) (getD_mem_of_lt raw.rows i [] hrow)
        omega
      rw [← List.getD_eq_getElem raw.cols ("") hj, ← List.getD_eq_getElem _ ("") hj2]
      rw [hcon]
      simp
    · intro s
      cases h : parse s with
      | none => right; simp [coerceCell, h]
      | some q => left; exact ⟨q, by simp [coerceCell, h]⟩
  · intro e; rfl

theorem C9_load_csv_witness :
    (∀ r ∈ rawW.rows, r.length = rawW.cols.length) ∧
    ((∃ df, load_csv parseW (Except.ok rawW) none = Except.ok df ∧
      df.rows.length = rawW.rows.length ∧
      (∀ i j, i < rawW.rows.length → j < rawW.cols.length →
        ((none : Option (List String)).getD default_numeric).contains
            (rawW.cols.getD j "") = true →
          (df.rows.getD i []).getD j Cell.missing =
            coerceCell parseW ((rawW.rows.getD i []).getD j "")) ∧
      (∀ s, (∃ q, coerceCell parseW s = Cell.num q) ∨
        coerceCell parseW s = Cell.missing)) ∧
    (∀ e, load_csv parseW (Except.error e) none = Except.error e)) :=
  ⟨by decide, C9_load_csv parseW rawW none (by decide)⟩

/-- C10 (amended): `split_train_test` returns the quadruple of `None`s on a
non-table input, a missing target column, an out-of-range `test_size`, and
also whenever the computed test or train partition would be empty (there
`train_test_split` raises and the handler returns the Nones); in the remaining
cases it returns a four-way split whose feature frames drop exactly the target
column. -/
theorem C10_split_train_test :
    (∀ t ts p, split_train_test PyVal.other t ts p = none) ∧
    (∀ df t ts p, colIdx df t = none →
      split_train_test (PyVal.table df) t ts p = none) ∧
    (∀ df t ts p, ¬(0 < ts ∧ ts < 1) →
      split_train_test (PyVal.table df) t ts p = none) ∧
    (∀ df t ts p j, colIdx df t = some j → (0 < ts ∧ ts < 1) →
      ((Int.ceil (ts * df.rows.length)).toNat = 0 ∨
        df.rows.length - (Int.ceil (ts * df.rows.length)).toNat = 0) →
      split_train_test (PyVal.table df) t ts p = none) ∧
    (∀ df t ts p j, colIdx df t = some j → (0 < ts ∧ ts < 1) →
      (Int.ceil (ts * df.rows.length)).toNat ≠ 0 →
      df.rows.length - (Int.ceil (ts * df.rows.length)).toNat ≠ 0 →
      ∃ res, split_train_test (PyVal.table df) t ts p = some res ∧
        res.1.cols = df.cols.filter (fun q => !(q.1 == t)) ∧
        res.2.1.cols = df.cols.filter (fun q => !(q.1 == t))) := by
  refine ⟨fun _ _ _ => rfl, ?_, ?_, ?_, ?_⟩
  · intro df t ts p h
    simp [split_train_test, h]
  · intro df t ts p h
    cases hj : colIdx df t with
    | none => simp [split_train_test, hj]
    | some j => simp [split_train_test, hj, h]
  · intro df t ts p j hj hts hz
    simp only [split_train_test, hj, if_pos hts]
    rcases hz with hz | hz <;> simp [hz]
  · intro df t ts p j hj hts h1 h2
    have hcond : ¬((Int.ceil (ts * df.rows.length)).toNat = 0 ∨
        df.rows.length - (Int.ceil (ts * df.rows.length)).toNat = 0) := by
      push_neg
      exact ⟨h1, h2⟩
    simp only [split_train_test, hj, if_pos hts, if_neg hcond]
    exact ⟨_, rfl, rfl, rfl⟩

theorem C10_split_train_test_witness :
    (colIdx dfW10 "y" = some 1 ∧ (0 < (1/2 : ℚ) ∧ (1/2 : ℚ) < 1) ∧
      (Int.ceil ((1/2 : ℚ) * dfW10.rows.length)).toNat ≠ 0 ∧
      dfW10.rows.length - (Int.ceil ((1/2 : ℚ) * dfW10.rows.length)).toNat ≠ 0) ∧
    (∃ res, split_train_test (PyVal.table dfW10) "y" (1/2) [0, 1] = some res ∧
      res.1.cols = dfW10.cols.filter (fun q => !(q.1 == "y")) ∧
      res.2.1.cols = dfW10.cols.filter (fun q => !(q.1 == "y"))) :=
  ⟨⟨by decide, by constructor <;> with_unfolding_all decide,
    by with_unfolding_all decide, by with_unfolding_all decide⟩,
   C10_split_train_test.2.2.2.2 dfW10 "y" (1/2) [0, 1] 1 (by decide)
     (by constructor <;> with_unfolding_all decide)
     (by with_unfolding_all decide) (by with_unfolding_all decide)⟩

/-- C10 counterexample: on a one-row table with a valid target and
`test_size = 1/5`, none of the claim's three None-conditions holds, and yet
`split_train_test` returns the quadruple of Nones instead of a four-way split
(`train_test_split` raises over the empty training set and the handler returns
the Nones). -/
theorem C10_split_counterexample :
    colIdx dfX10 "y" = some 1 ∧ (0 < (1/5 : ℚ) ∧ (1/5 : ℚ) < 1) ∧
      split_train_test (PyVal.table dfX10) "y" (1/5) [0] = none := by
  refine ⟨by decide, by constructor <;> with_unfolding_all decide, ?_⟩
  with_unfolding_all decide

/-- C2 (amended): when a target column is processed with resolved strategy
`mode` and has both a missing cell and at least one non-missing value, the
value substituted for its missing cells is a most-frequent non-missing value
that is least, in the column's value order, among the tied candidates
(`mode()` returns the tied values sorted ascending and `[0]` takes the first),
not the first-encountered tied value. -/
theorem C2_mode_fills_least_tied (df : DataFrame) (strategy c : String) (j : ℕ)
    (hj : colIdx df c = some j)
    (hst : resolvedStrategy c strategy = "mode")
    (hmiss : countMissing (getCol df j) ≠ 0)
    (hne : nonMissingCells (getCol df j) ≠ []) :
    ∃ v : Cell,
      handle_missing_values df strategy (some [c]) = fillCol df j v ∧
      v ∈ nonMissingCells (getCol df j) ∧
      (∀ w ∈ nonMissingCells (getCol df j),
        (nonMissingCells (getCol df j)).count w ≤
          (nonMissingCells (getCol df j)).count v) ∧
      (∀ w ∈ nonMissingCells (getCol df j),
        (nonMissingCells (getCol df j)).count w =
            (nonMissingCells (getCol df j)).count v →
          cellLeB v w = true) := by
  obtain ⟨v, hv⟩ : ∃ v, modeCell (getCol df j) = some v := by
    cases h : modeCell (getCol df j) with
    | none => exact absurd ((modeCell_eq_none _).mp h) hne
    | some v => exact ⟨v, rfl⟩
  have hspec := modeCell_spec _ _ hv
  refine ⟨v, ?_, hspec.1, hspec.2.1, hspec.2.2⟩
  show (Option.getD (some [c]) (df.cols.map Prod.fst)).foldl
      (handleCol strategy) df = fillCol df j v
  simp only [Option.getD, List.foldl_cons, List.foldl_nil]
  simp only [handleCol, hj]
  rw [if_neg hmiss, hst]
  by_cases hdt : (df.cols.getD j ("", Dtype.object)).2 = Dtype.numeric
  · simp [hdt, fillMode, hv]
  · simp [hdt, fillMode, hv]

/-- C2 counterexample: on the tied column [B, A, B, A, NaN] with resolved
strategy `mode`, the first-encountered tied value is B, but the code fills the
missing cell with A — `mode()[0]` is the least tied value, not the first
encountered. -/
theorem C2_mode_counterexample :
    resolvedStrategy "Region" "mean" = "mode" ∧
    firstEncounterMode (getCol dfX2 0) = some (Cell.text "B") ∧
    handle_missing_values dfX2 "mean" none = fillCol dfX2 0 (Cell.text "A") ∧
    Cell.text "A" ≠ Cell.text "B" := by
  refine ⟨by decide, ?_, ?_, by decide⟩ <;> with_unfolding_all decide

theorem C2_mode_fills_least_tied_witness :
    (colIdx dfX2 "Region" = some 0 ∧ resolvedStrategy "Region" "mean" = "mode" ∧
      countMissing (getCol dfX2 0) ≠ 0 ∧ nonMissingCells (getCol dfX2 0) ≠ []) ∧
    (∃ v : Cell,
      handle_missing_values dfX2 "mean" (some ["Region"]) = fillCol dfX2 0 v ∧
      v ∈ nonMissingCells (getCol dfX2 0) ∧
      (∀ w ∈ nonMissingCells (getCol dfX2 0),
        (nonMissingCells (getCol dfX2 0)).count w ≤
          (nonMissingCells (getCol dfX2 0)).count v) ∧
      (∀ w ∈ nonMissingCells (getCol dfX2 0),
        (nonMissingCells (getCol dfX2 0)).count w =
            (nonMissingCells (getCol dfX2 0)).count v →
          cellLeB v w = true)) :=
  ⟨⟨by decide, by decide, by decide, by decide⟩,
   C2_mode_fills_least_tied dfX2 "mean" "Region" 0 (by decide) (by decide)
     (by decide) (by decide)⟩

/-- C6 (amended): when `handle_missing_values` is invoked with `c` as its sole
target column and the resolved strategy for `c` is `drop`, the output is the
input with exactly the rows missing in `c` removed: no output row is missing in
`c`, and every surviving row — every cell, in `c` and elsewhere — is an
unchanged input row. -/
theorem C6_drop_is_row_filter (df : DataFrame) (strategy c : String) (j : ℕ)
    (hj : colIdx df c = some j)
    (hst : resolvedStrategy c strategy = "drop") :
    handle_missing_values df strategy (some [c]) =
      ⟨df.cols, df.rows.filter fun r => !(r.getD j Cell.missing).isMissing⟩ ∧
    (∀ r ∈ (handle_missing_values df strategy (some [c])).rows,
      (r.getD j Cell.missing).isMissing = false) ∧
    (∀ r ∈ (handle_missing_values df strategy (some [c])).rows, r ∈ df.rows) := by
  have h1 : handle_missing_values df strategy (some [c]) =
      ⟨df.cols, df.rows.filter fun r => !(r.getD j Cell.missing).isMissing⟩ := by
    show (Option.getD (some [c]) (df.cols.map Prod.fst)).foldl
        (handleCol strategy) df = _
    simp only [Option.getD, List.foldl_cons, List.foldl_nil]
    simp only [handleCol, hj]
    by_cases hz : countMissing (getCol df j) = 0
    · rw [if_pos hz]
      have hall : ∀ r ∈ df.rows, (!(r.getD j Cell.missing).isMissing) = true := by
        intro r hr
        have hthis := List.countP_eq_zero.mp hz (r.getD j Cell.missing)
          (List.mem_map.mpr ⟨r, hr, rfl⟩)
        cases hmb : (r.getD j Cell.missing).isMissing with
        | false => rfl
        | true => exact absurd hmb hthis
      conv_lhs => rw [show df = ⟨df.cols, df.rows⟩ from rfl]
      rw [List.filter_eq_self.mpr hall]
    · rw [if_neg hz, hst]
      by_cases hdt : (df.cols.getD j ("", Dtype.object)).2 = Dtype.numeric
      · simp [hdt, dropMissingRows]
      · simp [hdt, dropMissingRows]
  refine ⟨h1, ?_, ?_⟩
  · intro r hr
    rw [h1] at hr
    have := List.of_mem_filter hr
    simpa using this
  · intro r hr
    rw [h1] at hr
    exact List.mem_of_mem_filter hr

set_option maxRecDepth 40000 in
/-- C6 counterexample: running `handle_missing_values` over all columns of
`dfX6`, the row surviving the `Year` drop is not unchanged — its `Region` cell
is filled from missing to `"x"` by that column's own `mode` strategy, so "every
surviving row's other columns are unchanged" fails for the full-table call. -/
theorem C6_drop_counterexample :
    resolvedStrategy "Year" "mean" = "drop" ∧
    (handle_missing_values dfX6 "mean" none).rows =
      [[Cell.num 2000, Cell.text "x"], [Cell.num 2001, Cell.text "x"]] ∧
    dfX6.rows.filter (fun r => !(r.getD 0 Cell.missing).isMissing) =
      [[Cell.num 2000, Cell.missing], [Cell.num 2001, Cell.text "x"]] ∧
    ¬(((handle_missing_values dfX6 "mean" none).rows.getD 0 []).getD 1
          Cell.missing =
      ((dfX6.rows.filter fun r =>
          !(r.getD 0 Cell.missing).isMissing).getD 0 []).getD 1 Cell.missing) := by
  refine ⟨by decide, ?_, by decide, ?_⟩ <;> with_unfolding_all decide

theorem C6_drop_is_row_filter_witness :
    (colIdx dfX6 "Year" = some 0 ∧ resolvedStrategy "Year" "mean" = "drop") ∧
    (handle_missing_values dfX6 "mean" (some ["Year"]) =
      ⟨dfX6.cols, dfX6.rows.filter fun r => !(r.getD 0 Cell.missing).isMissing⟩ ∧
    (∀ r ∈ (handle_missing_values dfX6 "mean" (some ["Year"])).rows,
      (r.getD 0 Cell.missing).isMissing = false) ∧
    (∀ r ∈ (handle_missing_values dfX6 "mean" (some ["Year"])).rows,
      r ∈ dfX6.rows)) :=
  ⟨⟨by decide, by decide⟩,
   C6_drop_is_row_filter dfX6 "mean" "Year" 0 (by decide) (by decide)⟩

/-! ### Invariant lemmas for the missing-value pass -/
theorem mem_getCol (df : DataFrame) (j : ℕ) (x : Cell) :
    x ∈ getCol df j ↔ ∃ r ∈ df.rows, r.getD j Cell.missing = x := by
  simp only [getCol, List.mem_map]

theorem allMissing_iff (df : DataFrame) (j : ℕ) :
    colAllMissingB df j = true ↔ nonMissingCells (getCol df j) = [] := by
  simp only [colAllMissingB, List.all_eq_true, nonMissingCells,
    List.filter_eq_nil_iff]
  constructor
  · intro h x hx
    obtain ⟨r, hr, rfl⟩ := (mem_getCol df j x).mp hx
    rw [h r hr]
    simp
  · intro h r hr
    have hx := h (r.getD j Cell.missing) ((mem_getCol df j _).mpr ⟨r, hr, rfl⟩)
    cases hmb : (r.getD j Cell.missing).isMissing
    · rw [hmb] at hx
      simp at hx
    · rfl

theorem free_iff (df : DataFrame) (j : ℕ) :
    colMissingFreeB df j = true ↔ countMissing (getCol df j) = 0 := by
  simp only [colMissingFreeB, List.all_eq_true, countMissing,
    List.countP_eq_zero]
  constructor
  · intro h x hx
    obtain ⟨r, hr, rfl⟩ := (mem_getCol df j x).mp hx
    have hthis := h r hr
    cases hmb : (r.getD j Cell.missing).isMissing
    · simp
    · rw [hmb] at hthis
      simp at hthis
  · intro h r hr
    have hx := h (r.getD j Cell.missing) ((mem_getCol df j _).mpr ⟨r, hr, rfl⟩)
    cases hmb : (r.getD j Cell.missing).isMissing
    · rfl
    · rw [hmb] at hx
      simp at hx

theorem dropRows_preserves_all (df : DataFrame) (q : List Cell → Bool)
    (p : List Cell → Bool) (h : df.rows.all p = true) :
    (df.rows.filter q).all p = true := by
  simp only [List.all_eq_true] at h ⊢
  intro r hr
  exact h r (List.mem_of_mem_filter hr)

theorem free_of_countMissing_zero_getD (df : DataFrame) (j : ℕ)
    (h : colMissingFreeB df j = true) :
    ∀ r ∈ df.rows, j < r.length := by
  intro r hr
  by_contra hlen
  push_neg at hlen
  simp only [colMissingFreeB, List.all_eq_true] at h
  have := h r hr
  rw [List.getD_eq_default _ _ hlen] at this
  simp [Cell.isMissing] at this

theorem fillCol_preserves_free (df : DataFrame) (i j : ℕ) (v : Cell)
    (hv : v.isMissing = false) (h : colMissingFreeB df j = true) :
    colMissingFreeB (fillCol df i v) j = true := by
  by_cases hij : i = j
  · subst hij
    simp only [colMissingFreeB, fillCol, mapCol, List.all_eq_true, List.mem_map]
    rintro nr ⟨r, hr, rfl⟩
    have hlen := free_of_countMissing_zero_getD df i h r hr
    rw [getD_set_self _ _ _ _ hlen]
    simp only [colMissingFreeB, List.all_eq_true] at h
    have hold := h r hr
    cases hmb : (r.getD i Cell.missing).isMissing
    · rw [if_neg (by simp)]
      rw [hmb]
      rfl
    · rw [if_pos rfl]
      rw [hv]
      rfl
  · simp only [colMissingFreeB, fillCol, mapCol, List.all_eq_true, List.mem_map]
    rintro nr ⟨r, hr, rfl⟩
    rw [getD_set_ne _ _ _ hij]
    simp only [colMissingFreeB, List.all_eq_true] at h
    exact h r hr

theorem mapCol_preserves_free_ne (df : DataFrame) (i j : ℕ) (hij : i ≠ j)
    (f : Cell → Cell) (h : colMissingFreeB df j = true) :
    colMissingFreeB (mapCol df i f) j = true := by
  simp only [colMissingFreeB, mapCol, List.all_eq_true, List.mem_map]
  rintro nr ⟨r, hr, rfl⟩
  rw [getD_set_ne _ _ _ hij]
  simp only [colMissingFreeB, List.all_eq_true] at h
  exact h r hr

theorem mapCol_preserves_all_ne (df : DataFrame) (i j : ℕ) (hij : i ≠ j)
    (f : Cell → Cell) (h : colAllMissingB df j = true) :
    colAllMissingB (mapCol df i f) j = true := by
  simp only [colAllMissingB, mapCol, List.all_eq_true, List.mem_map]
  rintro nr ⟨r, hr, rfl⟩
  rw [getD_set_ne _ _ _ hij]
  simp only [colAllMissingB, List.all_eq_true] at h
  exact h r hr

theorem fillCol_establishes_free (df : DataFrame) (j : ℕ) (v : Cell)
    (hv : v.isMissing = false) (hlen : ∀ r ∈ df.rows, j < r.length) :
    colMissingFreeB (fillCol df j v) j = true := by
  simp only [colMissingFreeB, fillCol, mapCol, List.all_eq_true, List.mem_map]
  rintro nr ⟨r, hr, rfl⟩
  rw [getD_set_self _ _ _ _ (hlen r hr)]
  cases hmb : (r.getD j Cell.missing).isMissing
  · rw [if_neg (by simp)]
    rw [hmb]
    rfl
  · rw [if_pos rfl]
    rw [hv]
    rfl

/-- Index-wise reading of `DataFrame.wf`. -/
theorem wf_iff_index (df : DataFrame) :
    df.wf = true ↔ ∀ r ∈ df.rows, r.length = df.cols.length ∧
      ∀ k, k < df.cols.length →
        cellMatches (df.cols.getD k ("", Dtype.object)).2
          (r.getD k Cell.missing) = true := by
  simp only [DataFrame.wf, List.all_eq_true, Bool.and_eq_true, beq_iff_eq]
  constructor
  · intro h r hr
    obtain ⟨hlen, hzip⟩ := h r hr
    refine ⟨hlen, ?_⟩
    intro k hk
    have hk2 : k < (df.cols.zip r).length := by
      rw [List.length_zip]
      omega
    have hmem := List.getElem_mem hk2
    have hcm := hzip _ hmem
    rw [List.getElem_zip] at hcm
    rw [List.getD_eq_getElem _ _ hk, List.getD_eq_getElem _ _ (by omega)]
    exact hcm
  · intro h r hr
    obtain ⟨hlen, hidx⟩ := h r hr
    refine ⟨hlen, ?_⟩
    intro x hx
    obtain ⟨k, hk, rfl⟩ := List.mem_iff_getElem.mp hx
    have hk2 : k < df.cols.length := by
      rw [List.length_zip] at hk
      omega
    have hk3 : k < r.length := by omega
    have := hidx k hk2
    rw [List.getD_eq_getElem _ _ hk2, List.getD_eq_getElem _ _ hk3] at this
    rw [List.getElem_zip]
    exact this

theorem wf_dropRows (df : DataFrame) (q : List Cell → Bool)
    (hwf : df.wf = true) :
    (DataFrame.mk df.cols (df.rows.filter q)).wf = true := by
  rw [wf_iff_index] at hwf ⊢
  intro r hr
  exact hwf r (List.mem_of_mem_filter hr)

theorem wf_mapCol (df : DataFrame) (i : ℕ) (f : Cell → Cell)
    (hwf : df.wf = true)
    (hf : ∀ x, cellMatches (df.cols.getD i ("", Dtype.object)).2 x = true →
      cellMatches (df.cols.getD i ("", Dtype.object)).2 (f x) = true) :
    (mapCol df i f).wf = true := by
  rw [wf_iff_index] at hwf ⊢
  simp only [mapCol, List.mem_map]
  rintro nr ⟨r, hr, rfl⟩
  obtain ⟨hlen, hidx⟩ := hwf r hr
  refine ⟨by rw [List.length_set]; exact hlen, ?_⟩
  intro k hk
  by_cases hki : k = i
  · subst hki
    have hkr : k < r.length := by omega
    rw [getD_set_self _ _ _ _ hkr]
    exact hf _ (hidx k hk)
  · rw [getD_set_ne _ _ _ (fun h2 => hki h2.symm)]
    exact hidx k hk

theorem wf_fillCol (df : DataFrame) (i : ℕ) (v : Cell) (hwf : df.wf = true)
    (hv : cellMatches (df.cols.getD i ("", Dtype.object)).2 v = true) :
    (fillCol df i v).wf = true := by
  apply wf_mapCol df i _ hwf
  intro x hx
  cases hmb : x.isMissing
  · rw [if_neg (by simp)]
    exact hx
  · rw [if_pos rfl]
    exact hv

theorem numeric_allMissing_of_nums_nil (df : DataFrame) (j : ℕ)
    (hwf : df.wf = true) (hj : j < df.cols.length)
    (hdt : (df.cols.getD j ("", Dtype.object)).2 = Dtype.numeric)
    (hnil : nonMissingNums (getCol df j) = []) :
    colAllMissingB df j = true := by
  rw [allMissing_iff]
  rw [List.eq_nil_iff_forall_not_mem]
  intro x hx
  have hxcol := List.mem_of_mem_filter hx
  have hxnm := List.of_mem_filter hx
  obtain ⟨r, hr, rfl⟩ := (mem_getCol df j x).mp hxcol
  obtain ⟨hlen, hidx⟩ := (wf_iff_index df).mp hwf r hr
  have hcm := hidx j hj
  rw [hdt] at hcm
  cases hcell : r.getD j Cell.missing with
  | num q =>
    have : q ∈ nonMissingNums (getCol df j) := by
      simp only [nonMissingNums, List.mem_filterMap]
      exact ⟨Cell.num q, hcell ▸ hxcol, rfl⟩
    rw [hnil] at this
    simp at this
  | text s =>
    rw [hcell] at hcm
    simp [cellMatches] at hcm
  | missing =>
    rw [hcell] at hxnm
    simp [Cell.isMissing] at hxnm

theorem nums_nil_of_nonMissing_nil (col : List Cell)
    (h : nonMissingCells col = []) : nonMissingNums (col) = [] := by
  simp only [nonMissingNums]
  rw [List.filterMap_eq_nil_iff]
  intro x hx
  cases x with
  | num q =>
    exfalso
    have : Cell.num q ∈ nonMissingCells col :=
      List.mem_filter.mpr ⟨hx, by simp [Cell.isMissing]⟩
    rw [h] at this
    simp at this
  | text s => rfl
  | missing => rfl

theorem modeCell_nonmissing (col : List Cell) (v : Cell)
    (hv : modeCell col = some v) : v.isMissing = false ∧ v ∈ col := by
  have hmem := (modeCell_spec col v hv).1
  have h1 := List.of_mem_filter hmem
  have h2 := List.mem_of_mem_filter hmem
  constructor
  · cases hmb : v.isMissing
    · rfl
    · rw [hmb] at h1
      simp at h1
  · exact h2

theorem fillMean_cols (df : DataFrame) (j : ℕ) :
    (fillMean df j).cols = df.cols := by
  unfold fillMean
  split <;> rfl

theorem fillMedian_cols (df : DataFrame) (j : ℕ) :
    (fillMedian df j).cols = df.cols := by
  unfold fillMedian
  split <;> rfl

theorem fillMode_cols (df : DataFrame) (j : ℕ) :
    (fillMode df j).cols = df.cols := by
  unfold fillMode
  split <;> rfl

theorem handleCol_cols (s : String) (df : DataFrame) (c : String) :
    (handleCol s df c).cols = df.cols := by
  unfold handleCol
  cases colIdx df c with
  | none => rfl
  | some j =>
    dsimp only
    split
    · rfl
    · split
      · split
        · exact fillMean_cols df j
        · split
          · exact fillMedian_cols df j
          · split
            · exact fillMode_cols df j
            · split
              · rfl
              · exact fillMean_cols df j
      · split
        · exact fillMode_cols df j
        · split
          · rfl
          · exact fillMode_cols df j

theorem dropMissingRows_free_self (df : DataFrame) (j : ℕ) :
    colMissingFreeB (dropMissingRows df j) j = true := by
  simp only [colMissingFreeB, dropMissingRows, List.all_eq_true]
  intro r hr
  have h2 := List.of_mem_filter hr
  simpa using h2

theorem dropMissingRows_preserves_free (df : DataFrame) (i j : ℕ)
    (h : colMissingFreeB df j = true) :
    colMissingFreeB (dropMissingRows df i) j = true :=
  dropRows_preserves_all df _ _ h

theorem dropMissingRows_preserves_all_m (df : DataFrame) (i j : ℕ)
    (h : colAllMissingB df j = true) :
    colAllMissingB (dropMissingRows df i) j = true :=
  dropRows_preserves_all df _ _ h

theorem fillMean_preserves_free (df : DataFrame) (i j : ℕ)
    (h : colMissingFreeB df j = true) :
    colMissingFreeB (fillMean df i) j = true := by
  unfold fillMean
  cases meanQ (nonMissingNums (getCol df i)) with
  | none => exact h
  | some m => exact fillCol_preserves_free df i j _ rfl h

theorem fillMedian_preserves_free (df : DataFrame) (i j : ℕ)
    (h : colMissingFreeB df j = true) :
    colMissingFreeB (fillMedian df i) j = true := by
  unfold fillMedian
  cases medianQ (nonMissingNums (getCol df i)) with
  | none => exact h
  | some m => exact fillCol_preserves_free df i j _ rfl h

theorem fillMode_preserves_free (df : DataFrame) (i j : ℕ)
    (h : colMissingFreeB df j = true) :
    colMissingFreeB (fillMode df i) j = true := by
  unfold fillMode
  cases hv : modeCell (getCol df i) with
  | none => exact h
  | some v =>
    exact fillCol_preserves_free df i j _ (modeCell_nonmissing _ _ hv).1 h

theorem handleCol_preserves_free (s c : String) (df : DataFrame) (j : ℕ)
    (h : colMissingFreeB df j = true) :
    colMissingFreeB (handleCol s df c) j = true := by
  unfold handleCol
  cases colIdx df c with
  | none => exact h
  | some i =>
    dsimp only
    split
    · exact h
    · split
      · split
        · exact fillMean_preserves_free df i j h
        · split
          · exact fillMedian_preserves_free df i j h
          · split
            · exact fillMode_preserves_free df i j h
            · split
              · exact dropMissingRows_preserves_free df i j h
              · exact fillMean_preserves_free df i j h
      · split
        · exact fillMode_preserves_free df i j h
        · split
          · exact dropMissingRows_preserves_free df i j h
          · exact fillMode_preserves_free df i j h

theorem fillMean_preserves_all (df : DataFrame) (i j : ℕ)
    (h : colAllMissingB df j = true) :
    colAllMissingB (fillMean df i) j = true := by
  by_cases hij : i = j
  · subst hij
    unfold fillMean
    rw [nums_nil_of_nonMissing_nil _ ((allMissing_iff df i).mp h)]
    exact h
  · unfold fillMean
    cases meanQ (nonMissingNums (getCol df i)) with
    | none => exact h
    | some m => exact mapCol_preserves_all_ne df i j hij _ h

theorem fillMedian_preserves_all (df : DataFrame) (i j : ℕ)
    (h : colAllMissingB df j = true) :
    colAllMissingB (fillMedian df i) j = true := by
  by_cases hij : i = j
  · subst hij
    unfold fillMedian
    rw [nums_nil_of_nonMissing_nil _ ((allMissing_iff df i).mp h)]
    exact h
  · unfold fillMedian
    cases medianQ (nonMissingNums (getCol df i)) with
    | none => exact h
    | some m => exact mapCol_preserves_all_ne df i j hij _ h

theorem fillMode_preserves_all (df : DataFrame) (i j : ℕ)
    (h : colAllMissingB df j = true) :
    colAllMissingB (fillMode df i) j = true := by
  by_cases hij : i = j
  · subst hij
    unfold fillMode
    rw [(modeCell_eq_none _).mpr ((allMissing_iff df i).mp h)]
    exact h
  · unfold fillMode
    cases modeCell (getCol df i) with
    | none => exact h
    | some v => exact mapCol_preserves_all_ne df i j hij _ h

theorem dropMissingRows_preserves_disj (df : DataFrame) (i j : ℕ)
    (h : colAllMissingB df j = true) :
    colMissingFreeB (dropMissingRows df i) j = true ∨
      colAllMissingB (dropMissingRows df i) j = true :=
  Or.inr (dropMissingRows_preserves_all_m df i j h)

theorem handleCol_preserves_all (s c : String) (df : DataFrame) (j : ℕ)
    (h : colAllMissingB df j = true) :
    colAllMissingB (handleCol s df c) j = true := by
  unfold handleCol
  cases colIdx df c with
  | none => exact h
  | some i =>
    dsimp only
    split
    · exact h
    · split
      · split
        · exact fillMean_preserves_all df i j h
        · split
          · exact fillMedian_preserves_all df i j h
          · split
            · exact fillMode_preserves_all df i j h
            · split
              · exact dropMissingRows_preserves_all_m df i j h
              · exact fillMean_preserves_all df i j h
      · split
        · exact fillMode_preserves_all df i j h
        · split
          · exact dropMissingRows_preserves_all_m df i j h
          · exact fillMode_preserves_all df i j h

theorem mode_value_matches (df : DataFrame) (j : ℕ) (v : Cell)
    (hwf : df.wf = true) (hj : j < df.cols.length)
    (hv : modeCell (getCol df j) = some v) :
    cellMatches (df.cols.getD j ("", Dtype.object)).2 v = true := by
  obtain ⟨hnm, hmem⟩ := modeCell_nonmissing _ _ hv
  obtain ⟨r, hr, rfl⟩ := (mem_getCol df j _).mp hmem
  obtain ⟨hlen, hidx⟩ := (wf_iff_index df).mp hwf r hr
  exact hidx j hj

theorem wf_fillMean_of_numeric (df : DataFrame) (i : ℕ) (hwf : df.wf = true)
    (hdt : (df.cols.getD i ("", Dtype.object)).2 = Dtype.numeric) :
    (fillMean df i).wf = true := by
  unfold fillMean
  cases meanQ (nonMissingNums (getCol df i)) with
  | none => exact hwf
  | some m => exact wf_fillCol df i _ hwf (by rw [hdt]; rfl)

theorem wf_fillMedian_of_numeric (df : DataFrame) (i : ℕ) (hwf : df.wf = true)
    (hdt : (df.cols.getD i ("", Dtype.object)).2 = Dtype.numeric) :
    (fillMedian df i).wf = true := by
  unfold fillMedian
  cases medianQ (nonMissingNums (getCol df i)) with
  | none => exact hwf
  | some m => exact wf_fillCol df i _ hwf (by rw [hdt]; rfl)

theorem wf_fillMode (df : DataFrame) (i : ℕ) (hwf : df.wf = true)
    (hilt : i < df.cols.length) : (fillMode df i).wf = true := by
  unfold fillMode
  cases hv : modeCell (getCol df i) with
  | none => exact hwf
  | some v => exact wf_fillCol df i _ hwf (mode_value_matches df i v hwf hilt hv)

theorem wf_dropMissingRows (df : DataFrame) (i : ℕ) (hwf : df.wf = true) :
    (dropMissingRows df i).wf = true :=
  wf_dropRows df _ hwf

theorem handleCol_wf (s c : String) (df : DataFrame) (hwf : df.wf = true) :
    (handleCol s df c).wf = true := by
  unfold handleCol
  cases hj : colIdx df c with
  | none => exact hwf
  | some i =>
    have hjlt := (colIdx_name df c i hj).1
    dsimp only
    split
    · exact hwf
    · split
      next hdt =>
        split
        · exact wf_fillMean_of_numeric df i hwf hdt
        · split
          · exact wf_fillMedian_of_numeric df i hwf hdt
          · split
            · exact wf_fillMode df i hwf hjlt
            · split
              · exact wf_dropMissingRows df i hwf
              · exact wf_fillMean_of_numeric df i hwf hdt
      next hdt =>
        split
        · exact wf_fillMode df i hwf hjlt
        · split
          · exact wf_dropMissingRows df i hwf
          · exact wf_fillMode df i hwf hjlt

theorem meanQ_eq_none (l : List ℚ) : meanQ l = none ↔ l = [] := by
  cases l <;> simp [meanQ]

theorem medianQ_eq_none (l : List ℚ) : medianQ l = none ↔ l = [] := by
  cases l <;> simp [medianQ, quantileQ]

theorem fillMode_disj (df : DataFrame) (j : ℕ)
    (hlen : ∀ r ∈ df.rows, j < r.length) :
    colMissingFreeB (fillMode df j) j = true ∨
      colAllMissingB (fillMode df j) j = true := by
  unfold fillMode
  cases hv : modeCell (getCol df j) with
  | none =>
    right
    exact (allMissing_iff df j).mpr ((modeCell_eq_none _).mp hv)
  | some v =>
    left
    exact fillCol_establishes_free df j v (modeCell_nonmissing _ _ hv).1 hlen

theorem fillMean_disj (df : DataFrame) (j : ℕ) (hwf : df.wf = true)
    (hjlt : j < df.cols.length)
    (hdt : (df.cols.getD j ("", Dtype.object)).2 = Dtype.numeric)
    (hlen : ∀ r ∈ df.rows, j < r.length) :
    colMissingFreeB (fillMean df j) j = true ∨
      colAllMissingB (fillMean df j) j = true := by
  unfold fillMean
  cases hq : meanQ (nonMissingNums (getCol df j)) with
  | none =>
    right
    exact numeric_allMissing_of_nums_nil df j hwf hjlt hdt ((meanQ_eq_none _).mp hq)
  | some m =>
    left
    exact fillCol_establishes_free df j _ rfl hlen

theorem fillMedian_disj (df : DataFrame) (j : ℕ) (hwf : df.wf = true)
    (hjlt : j < df.cols.length)
    (hdt : (df.cols.getD j ("", Dtype.object)).2 = Dtype.numeric)
    (hlen : ∀ r ∈ df.rows, j < r.length) :
    colMissingFreeB (fillMedian df j) j = true ∨
      colAllMissingB (fillMedian df j) j = true := by
  unfold fillMedian
  cases hq : medianQ (nonMissingNums (getCol df j)) with
  | none =>
    right
    exact numeric_allMissing_of_nums_nil df j hwf hjlt hdt ((medianQ_eq_none _).mp hq)
  | some m =>
    left
    exact fillCol_establishes_free df j _ rfl hlen

theorem handleCol_establishes (s c : String) (df : DataFrame) (j : ℕ)
    (hwf : df.wf = true) (hj : colIdx df c = some j) :
    (resolvedStrategy c s = "drop" →
      colMissingFreeB (handleCol s df c) j = true) ∧
    (colMissingFreeB (handleCol s df c) j = true ∨
      colAllMissingB (handleCol s df c) j = true) := by
  have hjlt := (colIdx_name df c j hj).1
  have hlen : ∀ r ∈ df.rows, j < r.length := by
    intro r hr
    have := ((wf_iff_index df).mp hwf r hr).1
    omega
  unfold handleCol
  rw [hj]
  dsimp only
  split
  next hz =>
    have hfree : colMissingFreeB df j = true := (free_iff df j).mpr hz
    exact ⟨fun _ => hfree, Or.inl hfree⟩
  next hz =>
    split
    next hdt =>
      split
      next hmean =>
        refine ⟨fun hd => absurd (hd.symm.trans hmean) (by decide), ?_⟩
        exact fillMean_disj df j hwf hjlt hdt hlen
      next hmean =>
        split
        next hmed =>
          refine ⟨fun hd => absurd (hd.symm.trans hmed) (by decide), ?_⟩
          exact fillMedian_disj df j hwf hjlt hdt hlen
        next hmed =>
          split
          next hmo =>
            refine ⟨fun hd => absurd (hd.symm.trans hmo) (by decide), ?_⟩
            exact fillMode_disj df j hlen
          next hmo =>
            split
            next hdr =>
              exact ⟨fun _ => dropMissingRows_free_self df j,
                Or.inl (dropMissingRows_free_self df j)⟩
            next hdr =>
              refine ⟨fun hd => absurd hd hdr, ?_⟩
              exact fillMean_disj df j hwf hjlt hdt hlen
    next hdt =>
      split
      next hmo =>
        refine ⟨fun hd => absurd (hd.symm.trans hmo) (by decide), ?_⟩
        exact fillMode_disj df j hlen
      next hmo =>
        split
        next hdr =>
          exact ⟨fun _ => dropMissingRows_free_self df j,
            Or.inl (dropMissingRows_free_self df j)⟩
        next hdr =>
          refine ⟨fun hd => absurd hd hdr, ?_⟩
          exact fillMode_disj df j hlen

theorem foldl_handleCol_cols (s : String) (L : List String) :
    ∀ df : DataFrame, (L.foldl (handleCol s) df).cols = df.cols := by
  induction L with
  | nil => intro df; rfl
  | cons a L ih =>
    intro df
    rw [List.foldl_cons, ih (handleCol s df a), handleCol_cols]

theorem foldl_handleCol_wf (s : String) (L : List String) :
    ∀ df : DataFrame, df.wf = true → (L.foldl (handleCol s) df).wf = true := by
  induction L with
  | nil => intro df h; exact h
  | cons a L ih =>
    intro df h
    rw [List.foldl_cons]
    exact ih _ (handleCol_wf s a df h)

theorem foldl_handleCol_free (s : String) (L : List String) (j : ℕ) :
    ∀ df : DataFrame, colMissingFreeB df j = true →
      colMissingFreeB (L.foldl (handleCol s) df) j = true := by
  induction L with
  | nil => intro df h; exact h
  | cons a L ih =>
    intro df h
    rw [List.foldl_cons]
    exact ih _ (handleCol_preserves_free s a df j h)

theorem foldl_handleCol_all (s : String) (L : List String) (j : ℕ) :
    ∀ df : DataFrame, colAllMissingB df j = true →
      colAllMissingB (L.foldl (handleCol s) df) j = true := by
  induction L with
  | nil => intro df h; exact h
  | cons a L ih =>
    intro df h
    rw [List.foldl_cons]
    exact ih _ (handleCol_preserves_all s a df j h)

theorem foldl_handleCol_main (s : String) (L : List String) (c : String) (j : ℕ) :
    ∀ df : DataFrame, df.wf = true → colIdx df c = some j → c ∈ L →
      (resolvedStrategy c s = "drop" →
        colMissingFreeB (L.foldl (handleCol s) df) j = true) ∧
      (colMissingFreeB (L.foldl (handleCol s) df) j = true ∨
        colAllMissingB (L.foldl (handleCol s) df) j = true) := by
  induction L with
  | nil => intro df _ _ hc; simp at hc
  | cons a L ih =>
    intro df hwf hj hc
    rw [List.foldl_cons]
    by_cases hcL : c ∈ L
    · have hwf2 := handleCol_wf s a df hwf
      have hj2 : colIdx (handleCol s df a) c = some j := by
        simp only [colIdx, handleCol_cols]
        exact hj
      exact ih _ hwf2 hj2 hcL
    · have hca : a = c := by
        rcases List.mem_cons.mp hc with h | h
        · exact h.symm
        · exact absurd h hcL
      subst hca
      have hest := handleCol_establishes s a df j hwf hj
      constructor
      · intro hd
        exact foldl_handleCol_free s L j _ (hest.1 hd)
      · rcases hest.2 with h | h
        · exact Or.inl (foldl_handleCol_free s L j _ h)
        · exact Or.inr (foldl_handleCol_all s L j _ h)

/-- C1 (amended): after `handle_missing_values` runs over all columns of a
well-formed table, every target column whose resolved strategy is `drop` has no
remaining row in which it is missing; every other target column either retains
no missing marker or — when its filler found no non-missing value to draw from,
at the moment it was processed — is missing in every remaining row.  (The
original unconditional no-missing-marker claim fails on such starved columns.) -/
theorem C1_cleaning_invariant (df : DataFrame) (strategy : String)
    (hwf : df.wf = true) (c : String) (j : ℕ) (hj : colIdx df c = some j) :
    (resolvedStrategy c strategy = "drop" →
      colMissingFreeB (handle_missing_values df strategy none) j = true) ∧
    (colMissingFreeB (handle_missing_values df strategy none) j = true ∨
      colAllMissingB (handle_missing_values df strategy none) j = true) := by
  have hc : c ∈ df.cols.map Prod.fst := by
    obtain ⟨hlt, hname⟩ := colIdx_name df c j hj
    rw [← hname]
    exact List.mem_map.mpr ⟨_, getD_mem_of_lt df.cols j _ hlt, rfl⟩
  exact foldl_handleCol_main strategy (df.cols.map Prod.fst) c j df hwf hj hc

/-- C1 counterexample: `Region` resolves to the non-`drop` strategy `mode`, yet
after `handle_missing_values` runs over all columns of `dfX1` the row still
carries the missing marker in `Region` — `mode()[0]` raises on the all-missing
column, the per-column handler skips it, and the invariant as stated fails. -/
theorem C1_cleaning_counterexample :
    resolvedStrategy "Region" "mean" = "mode" ∧
    dfX1.wf = true ∧
    colMissingFreeB (handle_missing_values dfX1 "mean" none) 0 = false := by
  refine ⟨by decide, by decide, ?_⟩
  with_unfolding_all decide

theorem C1_cleaning_invariant_witness :
    (dfX6.wf = true ∧ colIdx dfX6 "Year" = some 0) ∧
    ((resolvedStrategy "Year" "mean" = "drop" →
      colMissingFreeB (handle_missing_values dfX6 "mean" none) 0 = true) ∧
    (colMissingFreeB (handle_missing_values dfX6 "mean" none) 0 = true ∨
      colAllMissingB (handle_missing_values dfX6 "mean" none) 0 = true)) :=
  ⟨⟨by decide, by decide⟩,
   C1_cleaning_invariant dfX6 "mean" (by decide) "Year" 0 (by decide)⟩

theorem minQ_le_maxQ (l : List ℚ) (h : l ≠ []) : minQ l ≤ maxQ l :=
  le_trans (minQ_le_mem l _ (maxQ_mem l h)) (le_refl _)

theorem minmaxCol_cols (df : DataFrame) (j : ℕ) :
    (minmaxCol df j).cols = df.cols := by
  unfold minmaxCol
  split <;> rfl

theorem minmaxCol_rows_len (df : DataFrame) (j : ℕ) :
    (minmaxCol df j).rows.length = df.rows.length := by
  unfold minmaxCol
  split
  · rfl
  · simp [mapCol]

theorem nums_map_numeric (col : List Cell) (g : ℚ → ℚ) :
    nonMissingNums (col.map fun x => match x with
      | Cell.num q => Cell.num (g q)
      | x => x) = (nonMissingNums col).map g := by
  simp only [nonMissingNums, List.filterMap_map, List.map_filterMap]
  apply List.filterMap_congr
  intro x _
  cases x <;> rfl

theorem getCol_minmax_other (df : DataFrame) (i j : ℕ) (hij : i ≠ j) :
    getCol (minmaxCol df i) j = getCol df j := by
  unfold minmaxCol
  split
  · rfl
  · exact getCol_mapCol_ne df i j hij _

theorem mapCol_id_of_fix (df : DataFrame) (j : ℕ) (f : Cell → Cell)
    (hf : ∀ x, f x = x) : mapCol df j f = df := by
  unfold mapCol
  have hrows : (df.rows.map fun r => r.set j (f (r.getD j Cell.missing))) =
      df.rows := by
    have : ∀ r ∈ df.rows, r.set j (f (r.getD j Cell.missing)) = r := by
      intro r _
      rw [hf, set_getD_self]
    calc (df.rows.map fun r => r.set j (f (r.getD j Cell.missing)))
        = df.rows.map id := List.map_congr_left this
      _ = df.rows := List.map_id df.rows
  rw [hrows]

theorem minmax_establish (df : DataFrame) (j : ℕ) :
    normalCol (getCol (minmaxCol df j) j) ∧
      (minQ (nonMissingNums (getCol df j)) = maxQ (nonMissingNums (getCol df j)) →
        allZeroNums (getCol (minmaxCol df j) j)) := by
  by_cases hv : nonMissingNums (getCol df j) = []
  · unfold minmaxCol
    rw [if_pos hv]
    constructor
    · left; exact hv
    · intro _ q hq
      rw [hv] at hq
      simp at hq
  · unfold minmaxCol
    rw [if_neg hv]
    dsimp only
    set vals := nonMissingNums (getCol df j) with hvals
    set mn := minQ vals with hmn
    set mx := maxQ vals with hmx
    set d := (if mx - mn = 0 then 1 else mx - mn) with hd
    have hnums : nonMissingNums (getCol (mapCol df j fun x => match x with
        | Cell.num q => Cell.num ((q - mn) / d)
        | x => x) j) = vals.map fun q => (q - mn) / d := by
      rw [getCol_mapCol_self_of_fix df j _ rfl, nums_map_numeric]
    by_cases hconst : mx - mn = 0
    · have hd1 : d = 1 := by rw [hd, if_pos hconst]
      have hzero : ∀ q ∈ vals.map fun q => (q - mn) / d, q = 0 := by
        intro q hq
        obtain ⟨p, hp, rfl⟩ := List.mem_map.mp hq
        have h1 : mn ≤ p := minQ_le_mem vals p hp
        have h2 : p ≤ mx := mem_le_maxQ vals p hp
        have hpmn : p = mn := by
          have : mx = mn := by linarith
          linarith
        rw [hpmn, hd1]
        simp
      constructor
      · right; right
        intro q hq
        rw [hnums] at hq
        exact hzero q hq
      · intro _ q hq
        rw [hnums] at hq
        exact hzero q hq
    · have hdpos : 0 < d := by
        rw [hd, if_neg hconst]
        have hle := minQ_le_maxQ vals hv
        rw [← hmn, ← hmx] at hle
        rcases lt_or_eq_of_le hle with h | h
        · linarith
        · exact absurd (by rw [← h]; ring) hconst
      have hmono : Monotone fun q : ℚ => (q - mn) / d := by
        intro a b hab
        have h1 : a - mn ≤ b - mn := by linarith
        have h2 : (0 : ℚ) ≤ 1 / d := one_div_nonneg.mpr (le_of_lt hdpos)
        calc (a - mn) / d = (a - mn) * (1 / d) := by ring
          _ ≤ (b - mn) * (1 / d) := mul_le_mul_of_nonneg_right h1 h2
          _ = (b - mn) / d := by ring
      constructor
      · right; left
        constructor
        · rw [hnums, minQ_map_mono _ hmono _ hv, ← hmn]
          rw [sub_self, zero_div]
        · rw [hnums, maxQ_map_mono _ hmono _ hv, ← hmx]
          rw [hd, if_neg hconst, div_self hconst]
      · intro hceq
        exfalso
        exact hconst (by rw [hceq]; ring)

theorem minmax_id_of_normal (df : DataFrame) (j : ℕ)
    (h : normalCol (getCol df j)) : minmaxCol df j = df := by
  by_cases hnil : nonMissingNums (getCol df j) = []
  · unfold minmaxCol
    rw [if_pos hnil]
  · rcases h with h | ⟨h0, h1⟩ | hz
    · exact absurd h hnil
    · unfold minmaxCol
      rw [if_neg hnil]
      simp only [h0, h1]
      norm_num
      apply mapCol_id_of_fix
      intro x
      cases x <;> simp
    · have hmn : minQ (nonMissingNums (getCol df j)) = 0 :=
        hz _ (minQ_mem _ hnil)
      have hmx : maxQ (nonMissingNums (getCol df j)) = 0 :=
        hz _ (maxQ_mem _ hnil)
      unfold minmaxCol
      rw [if_neg hnil]
      simp only [hmn, hmx]
      norm_num
      apply mapCol_id_of_fix
      intro x
      cases x <;> simp

theorem normal_bounds (col : List Cell) (h : normalCol col) :
    ∀ q ∈ nonMissingNums col, 0 ≤ q ∧ q ≤ 1 := by
  intro q hq
  rcases h with h | ⟨h0, h1⟩ | hz
  · rw [h] at hq
    simp at hq
  · constructor
    · rw [← h0]
      exact minQ_le_mem _ _ hq
    · rw [← h1]
      exact mem_le_maxQ _ _ hq
  · rw [hz q hq]
    norm_num

theorem nfStep_cols (d : DataFrame) (c : String) : (nfStep d c).cols = d.cols := by
  unfold nfStep
  cases colIdx d c with
  | none => rfl
  | some j => exact minmaxCol_cols d j

theorem nfStep_rows_len (d : DataFrame) (c : String) :
    (nfStep d c).rows.length = d.rows.length := by
  unfold nfStep
  cases colIdx d c with
  | none => rfl
  | some j => exact minmaxCol_rows_len d j

theorem nfStep_preserves_normal (d : DataFrame) (c : String) (j : ℕ)
    (h : normalCol (getCol d j)) : normalCol (getCol (nfStep d c) j) := by
  unfold nfStep
  cases hi : colIdx d c with
  | none => exact h
  | some i =>
    dsimp only
    by_cases hij : i = j
    · subst hij
      rw [minmax_id_of_normal d i h]
      exact h
    · rw [getCol_minmax_other d i j hij]
      exact h

theorem allZero_normal (col : List Cell) (h : allZeroNums col) : normalCol col :=
  Or.inr (Or.inr h)

theorem nfStep_preserves_allZero (d : DataFrame) (c : String) (j : ℕ)
    (h : allZeroNums (getCol d j)) : allZeroNums (getCol (nfStep d c) j) := by
  unfold nfStep
  cases hi : colIdx d c with
  | none => exact h
  | some i =>
    dsimp only
    by_cases hij : i = j
    · subst hij
      rw [minmax_id_of_normal d i (allZero_normal _ h)]
      exact h
    · rw [getCol_minmax_other d i j hij]
      exact h

theorem foldl_nfStep_cols (sel : List String) :
    ∀ d : DataFrame, (sel.foldl nfStep d).cols = d.cols := by
  induction sel with
  | nil => intro d; rfl
  | cons a tl ih =>
    intro d
    rw [List.foldl_cons, ih, nfStep_cols]

theorem foldl_nfStep_rows_len (sel : List String) :
    ∀ d : DataFrame, (sel.foldl nfStep d).rows.length = d.rows.length := by
  induction sel with
  | nil => intro d; rfl
  | cons a tl ih =>
    intro d
    rw [List.foldl_cons, ih, nfStep_rows_len]

theorem foldl_nfStep_normal (sel : List String) (j : ℕ) :
    ∀ d : DataFrame, normalCol (getCol d j) →
      normalCol (getCol (sel.foldl nfStep d) j) := by
  induction sel with
  | nil => intro d h; exact h
  | cons a tl ih =>
    intro d h
    rw [List.foldl_cons]
    exact ih _ (nfStep_preserves_normal d a j h)

theorem foldl_nfStep_allZero (sel : List String) (j : ℕ) :
    ∀ d : DataFrame, allZeroNums (getCol d j) →
      allZeroNums (getCol (sel.foldl nfStep d) j) := by
  induction sel with
  | nil => intro d h; exact h
  | cons a tl ih =>
    intro d h
    rw [List.foldl_cons]
    exact ih _ (nfStep_preserves_allZero d a j h)

theorem colIdx_congr (d1 d2 : DataFrame) (c : String) (h : d1.cols = d2.cols) :
    colIdx d1 c = colIdx d2 c := by
  unfold colIdx
  rw [h]

theorem foldl_nfStep_main (sel : List String) (c : String) (j : ℕ) :
    ∀ d : DataFrame, colIdx d c = some j → c ∈ sel →
      normalCol (getCol (sel.foldl nfStep d) j) ∧
      (minQ (nonMissingNums (getCol d j)) = maxQ (nonMissingNums (getCol d j)) →
        allZeroNums (getCol (sel.foldl nfStep d) j)) := by
  induction sel with
  | nil => intro d _ hc; simp at hc
  | cons a tl ih =>
    intro d hj hc
    rw [List.foldl_cons]
    cases hi : colIdx d a with
    | none =>
      have hstep : nfStep d a = d := by unfold nfStep; rw [hi]
      rw [hstep]
      have hca : c ≠ a := by
        intro he
        rw [he, hi] at hj
        cases hj
      have hctl : c ∈ tl := by
        rcases List.mem_cons.mp hc with h | h
        · exact absurd h hca
        · exact h
      exact ih d hj hctl
    | some i =>
      by_cases hij : i = j
      · subst hij
        have hstep : nfStep d a = minmaxCol d i := by unfold nfStep; rw [hi]
        rw [hstep]
        have hest := minmax_establish d i
        constructor
        · exact foldl_nfStep_normal tl i _ hest.1
        · intro hconst
          exact foldl_nfStep_allZero tl i _ (hest.2 hconst)
      · have hstep : nfStep d a = minmaxCol d i := by unfold nfStep; rw [hi]
        have hca : c ≠ a := by
          intro he
          rw [he, hi] at hj
          exact hij (Option.some.injEq _ _ ▸ (by cases hj; rfl))
        have hctl : c ∈ tl := by
          rcases List.mem_cons.mp hc with h | h
          · exact absurd h hca
          · exact h
        have hj2 : colIdx (nfStep d a) c = some j := by
          rw [colIdx_congr _ d c (nfStep_cols d a)]
          exact hj
        have hcol : getCol (nfStep d a) j = getCol d j := by
          rw [hstep]
          exact getCol_minmax_other d i j hij
        have := ih (nfStep d a) hj2 hctl
        rw [hcol] at this
        exact this

theorem foldl_nfStep_id (sel : List String) :
    ∀ d : DataFrame,
      (∀ c ∈ sel, ∀ j, colIdx d c = some j → normalCol (getCol d j)) →
      sel.foldl nfStep d = d := by
  induction sel with
  | nil => intro d _; rfl
  | cons a tl ih =>
    intro d h
    rw [List.foldl_cons]
    have hstep : nfStep d a = d := by
      unfold nfStep
      cases hi : colIdx d a with
      | none => rfl
      | some i => exact minmax_id_of_normal d i (h a (List.mem_cons_self _ _) i hi)
    rw [hstep]
    exact ih d fun c hc => h c (List.mem_cons_of_mem _ hc)

theorem nfSelection_congr (d1 d2 : DataFrame) (columns : Option (List String))
    (ex : List String) (h : d1.cols = d2.cols) :
    nfSelection d1 columns ex = nfSelection d2 columns ex := by
  unfold nfSelection numericColNames
  rw [h]
  apply List.filter_congr
  intro c _
  rw [colIdx_congr d1 d2 c h]

theorem nf_guard_congr (d1 d2 : DataFrame) (sel : List String)
    (h : d1.cols = d2.cols) :
    (sel.all fun c => match colIdx d1 c with
      | some j => (d1.cols.getD j ("", Dtype.object)).2 == Dtype.numeric
      | none => false) =
    (sel.all fun c => match colIdx d2 c with
      | some j => (d2.cols.getD j ("", Dtype.object)).2 == Dtype.numeric
      | none => false) := by
  have hfun : (fun c => match colIdx d1 c with
      | some j => (d1.cols.getD j ("", Dtype.object)).2 == Dtype.numeric
      | none => false) = (fun c => match colIdx d2 c with
      | some j => (d2.cols.getD j ("", Dtype.object)).2 == Dtype.numeric
      | none => false) := by
    funext c
    rw [colIdx_congr d1 d2 c h, h]
  rw [hfun]

/-- `normalize_features` is idempotent: re-running on its own output with the
same column selection returns the same table. -/
theorem normalize_features_idem (df : DataFrame)
    (columns : Option (List String)) (ex : List String) :
    normalize_features (normalize_features df columns ex) columns ex =
      normalize_features df columns ex := by
  by_cases hsel : (nfSelection df columns ex).isEmpty
  · have h1 : normalize_features df columns ex = df := by
      unfold normalize_features normalize_featuresE
      rw [if_pos hsel]
    rw [h1]
    unfold normalize_features normalize_featuresE
    rw [if_pos hsel]
  · by_cases hguard : (((nfSelection df columns ex).all fun c =>
        match colIdx df c with
        | some j => (df.cols.getD j ("", Dtype.object)).2 == Dtype.numeric
        | none => false) && !df.rows.isEmpty) = true
    · have h1 : normalize_features df columns ex =
          (nfSelection df columns ex).foldl nfStep df := by
        unfold normalize_features normalize_featuresE
        rw [if_neg hsel, if_pos hguard]
      set out := (nfSelection df columns ex).foldl nfStep df with hout
      have hcols : out.cols = df.cols := foldl_nfStep_cols _ df
      have hsel2 : nfSelection out columns ex = nfSelection df columns ex :=
        nfSelection_congr out df columns ex hcols
      have hrows : out.rows.length = df.rows.length := foldl_nfStep_rows_len _ df
      have hguard2 : (((nfSelection out columns ex).all fun c =>
          match colIdx out c with
          | some j => (out.cols.getD j ("", Dtype.object)).2 == Dtype.numeric
          | none => false) && !out.rows.isEmpty) = true := by
        rw [hsel2, nf_guard_congr out df _ hcols]
        rw [Bool.and_eq_true] at hguard ⊢
        refine ⟨hguard.1, ?_⟩
        have h2 := hguard.2
        cases hoe : out.rows.isEmpty
        · rfl
        · exfalso
          have hnil : out.rows = [] := List.isEmpty_iff.mp hoe
          have : df.rows.isEmpty = true := by
            rw [List.isEmpty_iff]
            apply List.length_eq_zero.mp
            rw [← hrows, hnil]
            rfl
          rw [this] at h2
          simp at h2
      have hnorm : ∀ c ∈ nfSelection df columns ex, ∀ j,
          colIdx out c = some j → normalCol (getCol out j) := by
        intro c hc j hj
        have hjdf : colIdx df c = some j := by
          rw [← colIdx_congr out df c hcols]
          exact hj
        exact (foldl_nfStep_main _ c j df hjdf hc).1
      have h2 : normalize_features out columns ex = out := by
        unfold normalize_features normalize_featuresE
        rw [if_neg (by rw [hsel2]; exact hsel), if_pos hguard2]
        dsimp only
        rw [hsel2]
        exact foldl_nfStep_id _ out hnorm
      rw [h1]
      exact h2
    · have h1 : normalize_features df columns ex = df := by
        unfold normalize_features normalize_featuresE
        rw [if_neg hsel, if_neg hguard]
      rw [h1]
      unfold normalize_features normalize_featuresE
      rw [if_neg hsel, if_neg hguard]

/-- C4 (amended): over a selection of numeric columns, every non-missing cell
of a transformed column lies in [0,1]; a column whose min equals max maps every
non-missing cell to 0 instead of dividing by zero (missing cells stay missing,
so the original "every cell" phrasing fails on them); and re-running
`normalize_features` on the already-normalized table with the same column set
returns the same table. -/
theorem C4_normalize_bounds_idem (df : DataFrame)
    (columns : Option (List String)) (ex : List String)
    (hnum : ∀ c ∈ nfSelection df columns ex, ∀ j, colIdx df c = some j →
      (df.cols.getD j ("", Dtype.object)).2 = Dtype.numeric) :
    (∀ c ∈ nfSelection df columns ex, ∀ j, colIdx df c = some j →
      (∀ q ∈ nonMissingNums (getCol (normalize_features df columns ex) j),
        0 ≤ q ∧ q ≤ 1) ∧
      (minQ (nonMissingNums (getCol df j)) = maxQ (nonMissingNums (getCol df j)) →
        ∀ q ∈ nonMissingNums (getCol (normalize_features df columns ex) j),
          q = 0)) ∧
    normalize_features (normalize_features df columns ex) columns ex =
      normalize_features df columns ex := by
  refine ⟨?_, normalize_features_idem df columns ex⟩
  intro c hc j hj
  by_cases hsel : (nfSelection df columns ex).isEmpty
  · rw [List.isEmpty_iff] at hsel
    rw [hsel] at hc
    simp at hc
  · by_cases hrows : df.rows.isEmpty
    · have hnil : df.rows = [] := List.isEmpty_iff.mp hrows
      have hguard : ¬((((nfSelection df columns ex).all fun c =>
          match colIdx df c with
          | some j => (df.cols.getD j ("", Dtype.object)).2 == Dtype.numeric
          | none => false) && !df.rows.isEmpty) = true) := by
        rw [hrows]
        simp
      have h1 : normalize_features df columns ex = df := by
        unfold normalize_features normalize_featuresE
        rw [if_neg hsel, if_neg hguard]
      rw [h1]
      have hcolnil : getCol df j = [] := by
        rw [getCol, hnil]
        rfl
      rw [hcolnil]
      constructor
      · intro q hq
        simp [nonMissingNums] at hq
      · intro _ q hq
        simp [nonMissingNums] at hq
    · have hall : ((nfSelection df columns ex).all fun c =>
          match colIdx df c with
          | some j => (df.cols.getD j ("", Dtype.object)).2 == Dtype.numeric
          | none => false) = true := by
        rw [List.all_eq_true]
        intro x hx
        have hxs : (colIdx df x).isSome = true := by
          have := List.of_mem_filter hx
          simpa using this
        cases hxi : colIdx df x with
        | none => rw [hxi] at hxs; simp at hxs
        | some i =>
          have hdt := hnum x hx i hxi
          dsimp only
          rw [hdt]
          rfl
      have hguard : (((nfSelection df columns ex).all fun c =>
          match colIdx df c with
          | some j => (df.cols.getD j ("", Dtype.object)).2 == Dtype.numeric
          | none => false) && !df.rows.isEmpty) = true := by
        rw [Bool.and_eq_true, hall]
        refine ⟨rfl, ?_⟩
        rw [Bool.not_eq_true']
        cases hre : df.rows.isEmpty
        · rfl
        · exact absurd hre hrows
      have h1 : normalize_features df columns ex =
          (nfSelection df columns ex).foldl nfStep df := by
        unfold normalize_features normalize_featuresE
        rw [if_neg hsel, if_pos hguard]
      rw [h1]
      have hmain := foldl_nfStep_main (nfSelection df columns ex) c j df hj hc
      exact ⟨normal_bounds _ hmain.1, hmain.2⟩

/-- C4 counterexample: in `dfX4` the column's min equals its max, yet after
`normalize_features` the second cell is still the missing marker — neither a
value in [0,1] nor the constant 0 — so "every transformed cell lies in [0,1]"
and "maps every cell to 0" fail on missing cells. -/
theorem C4_normalize_counterexample :
    minQ (nonMissingNums (getCol dfX4 0)) = maxQ (nonMissingNums (getCol dfX4 0)) ∧
    (getCol (normalize_features dfX4 none []) 0).getD 1 Cell.missing =
      Cell.missing ∧
    Cell.missing ≠ Cell.num 0 ∧
    ¬(∀ x ∈ getCol (normalize_features dfX4 none []) 0, ∃ q : ℚ,
        x = Cell.num q ∧ 0 ≤ q ∧ q ≤ 1) := by
  refine ⟨by with_unfolding_all decide, by with_unfolding_all decide,
    by decide, ?_⟩
  intro h
  have hm : Cell.missing ∈ getCol (normalize_features dfX4 none []) 0 := by
    with_unfolding_all decide
  obtain ⟨q, hq, _⟩ := h Cell.missing hm
  cases hq

theorem C4_normalize_bounds_idem_witness :
    (∀ c ∈ nfSelection dfW4 none [], ∀ j, colIdx dfW4 c = some j →
      (dfW4.cols.getD j ("", Dtype.object)).2 = Dtype.numeric) ∧
    ((∀ c ∈ nfSelection dfW4 none [], ∀ j, colIdx dfW4 c = some j →
      (∀ q ∈ nonMissingNums (getCol (normalize_features dfW4 none []) j),
        0 ≤ q ∧ q ≤ 1) ∧
      (minQ (nonMissingNums (getCol dfW4 j)) = maxQ (nonMissingNums (getCol dfW4 j)) →
        ∀ q ∈ nonMissingNums (getCol (normalize_features dfW4 none []) j),
          q = 0)) ∧
    normalize_features (normalize_features dfW4 none []) none [] =
      normalize_features dfW4 none []) :=
  ⟨by decide, C4_normalize_bounds_idem dfW4 none [] (by decide)⟩

/-! ### Lemmas for the IQR clamp -/
theorem sorted_getD_le (s : List ℚ) (hs : s.Sorted (· ≤ ·)) (i j : ℕ)
    (hij : i ≤ j) (hj : j < s.length) : s.getD i 0 ≤ s.getD j 0 := by
  have hi : i < s.length := lt_of_le_of_lt hij hj
  rw [List.getD_eq_getElem _ _ hi, List.getD_eq_getElem _ _ hj]
  rcases lt_or_eq_of_le hij with h | h
  · exact List.Sorted.rel_get_of_lt hs (by simpa using h)
  · subst h
    exact le_refl _

theorem interp_floor_facts (h : ℚ) (n : ℕ) (h0 : 0 ≤ h)
    (hn : h ≤ (n : ℚ) - 1) (hn1 : 1 ≤ n) :
    ((Int.floor h).toNat : ℚ) ≤ h ∧ h < ((Int.floor h).toNat : ℚ) + 1 ∧
      (Int.floor h).toNat ≤ n - 1 := by
  have hfl : (0 : ℤ) ≤ Int.floor h := Int.floor_nonneg.mpr h0
  have hcast : (((Int.floor h).toNat : ℤ) : ℚ) = ((Int.floor h : ℤ) : ℚ) := by
    rw [Int.toNat_of_nonneg hfl]
  have h1 : ((Int.floor h).toNat : ℚ) ≤ h := by
    push_cast at hcast
    rw [hcast]
    exact Int.floor_le h
  have h2 : h < ((Int.floor h).toNat : ℚ) + 1 := by
    push_cast at hcast
    rw [hcast]
    exact Int.lt_floor_add_one h
  refine ⟨h1, h2, ?_⟩
  have : ((Int.floor h).toNat : ℚ) ≤ (n : ℚ) - 1 := le_trans h1 hn
  have hcast2 : ((n - 1 : ℕ) : ℚ) = (n : ℚ) - 1 := by
    push_cast [hn1]
    ring
  rw [← hcast2] at this
  exact_mod_cast this

theorem interp_bounds (s : List ℚ) (hs : s.Sorted (· ≤ ·)) (h : ℚ)
    (hne : s ≠ []) (h0 : 0 ≤ h) (hn : h ≤ (s.length : ℚ) - 1) :
    s.getD ((Int.floor h).toNat) 0 ≤ interpAt s h ∧
      interpAt s h ≤ s.getD (min ((Int.floor h).toNat + 1) (s.length - 1)) 0 := by
  have hn1 : 1 ≤ s.length := by
    cases s with
    | nil => exact absurd rfl hne
    | cons a t => simp
  obtain ⟨hf1, hf2, hf3⟩ := interp_floor_facts h s.length h0 hn hn1
  set i := (Int.floor h).toNat with hi
  set k := min (i + 1) (s.length - 1) with hk
  have hik : i ≤ k := by omega
  have hklt : k < s.length := by omega
  have hsk : s.getD i 0 ≤ s.getD k 0 := sorted_getD_le s hs i k hik hklt
  have hfrac0 : 0 ≤ h - (i : ℚ) := by linarith
  have hfrac1 : h - (i : ℚ) ≤ 1 := by linarith
  unfold interpAt
  dsimp only
  rw [← hi, ← hk]
  constructor
  · have : 0 ≤ (h - (i : ℚ)) * (s.getD k 0 - s.getD i 0) :=
      mul_nonneg hfrac0 (by linarith)
    linarith
  · have : (h - (i : ℚ)) * (s.getD k 0 - s.getD i 0) ≤
        1 * (s.getD k 0 - s.getD i 0) :=
      mul_le_mul_of_nonneg_right hfrac1 (by linarith)
    linarith

theorem interp_mono (s : List ℚ) (hs : s.Sorted (· ≤ ·)) (h1 h2 : ℚ)
    (hne : s ≠ []) (h10 : 0 ≤ h1) (h12 : h1 ≤ h2)
    (h2n : h2 ≤ (s.length : ℚ) - 1) : interpAt s h1 ≤ interpAt s h2 := by
  have hn1 : 1 ≤ s.length := by
    cases s with
    | nil => exact absurd rfl hne
    | cons a t => simp
  have h1n : h1 ≤ (s.length : ℚ) - 1 := le_trans h12 h2n
  have h20 : 0 ≤ h2 := le_trans h10 h12
  obtain ⟨ha1, ha2, ha3⟩ := interp_floor_facts h1 s.length h10 h1n hn1
  obtain ⟨hb1, hb2, hb3⟩ := interp_floor_facts h2 s.length h20 h2n hn1
  set i1 := (Int.floor h1).toNat with hi1
  set i2 := (Int.floor h2).toNat with hi2
  have hii : i1 ≤ i2 := by
    by_contra hcon
    push_neg at hcon
    have : (i2 : ℚ) + 1 ≤ (i1 : ℚ) := by exact_mod_cast hcon
    linarith
  obtain ⟨hl1, hu1⟩ := interp_bounds s hs h1 hne h10 h1n
  obtain ⟨hl2, hu2⟩ := interp_bounds s hs h2 hne h20 h2n
  rw [← hi1] at hl1 hu1
  rw [← hi2] at hl2 hu2
  rcases lt_or_eq_of_le hii with hlt | heq
  · have hk1 : min (i1 + 1) (s.length - 1) ≤ i2 := by omega
    have hs1 : s.getD (min (i1 + 1) (s.length - 1)) 0 ≤ s.getD i2 0 :=
      sorted_getD_le s hs _ i2 hk1 (by omega)
    exact le_trans hu1 (le_trans hs1 hl2)
  · unfold interpAt
    dsimp only
    rw [← hi1, ← hi2, heq]
    have hik : i2 ≤ min (i2 + 1) (s.length - 1) := by omega
    have hklt : min (i2 + 1) (s.length - 1) < s.length := by omega
    have hsk : s.getD i2 0 ≤ s.getD (min (i2 + 1) (s.length - 1)) 0 :=
      sorted_getD_le s hs _ _ hik hklt
    have hfa : ((i1 : ℚ)) = ((i2 : ℚ)) := by exact_mod_cast heq
    have hmul : (h1 - (i2 : ℚ)) * (s.getD (min (i2 + 1) (s.length - 1)) 0 -
        s.getD i2 0) ≤ (h2 - (i2 : ℚ)) * (s.getD (min (i2 + 1) (s.length - 1)) 0 -
        s.getD i2 0) :=
      mul_le_mul_of_nonneg_right (by linarith) (by linarith)
    linarith

theorem quantileQ_eq (l : List ℚ) (hne : l ≠ []) (q : ℚ) :
    quantileQ l q =
      some (interpAt (l.insertionSort (· ≤ ·)) (q * ((l.length : ℚ) - 1))) := by
  cases l with
  | nil => exact absurd rfl hne
  | cons a t => rfl

theorem sort_facts (l : List ℚ) (hne : l ≠ []) :
    (l.insertionSort (· ≤ ·)).Sorted (· ≤ ·) ∧
      (l.insertionSort (· ≤ ·)).length = l.length ∧
      l.insertionSort (· ≤ ·) ≠ [] ∧
      (∀ x ∈ l.insertionSort (· ≤ ·), x ∈ l) := by
  have hperm := List.perm_insertionSort (· ≤ ·) l
  refine ⟨List.sorted_insertionSort _ l, hperm.length_eq, ?_, ?_⟩
  · intro hnil
    rw [hnil] at hperm
    exact hne (hperm.symm.eq_nil)
  · intro x hx
    exact hperm.mem_iff.mp hx

theorem hq_range (l : List ℚ) (hne : l ≠ []) (q : ℚ) (hq0 : 0 ≤ q)
    (hq1 : q ≤ 1) :
    0 ≤ q * ((l.length : ℚ) - 1) ∧
      q * ((l.length : ℚ) - 1) ≤ (l.length : ℚ) - 1 := by
  have hn1 : 1 ≤ l.length := by
    cases l with
    | nil => exact absurd rfl hne
    | cons a t => simp
  have hge : (0 : ℚ) ≤ (l.length : ℚ) - 1 := by
    have : (1 : ℚ) ≤ (l.length : ℚ) := by exact_mod_cast hn1
    linarith
  constructor
  · exact mul_nonneg hq0 hge
  · calc q * ((l.length : ℚ) - 1) ≤ 1 * ((l.length : ℚ) - 1) :=
        mul_le_mul_of_nonneg_right hq1 hge
      _ = (l.length : ℚ) - 1 := one_mul _

theorem quantile_in_range (l : List ℚ) (hne : l ≠ []) (q v : ℚ)
    (hq0 : 0 ≤ q) (hq1 : q ≤ 1) (hv : quantileQ l q = some v) :
    minQ l ≤ v ∧ v ≤ maxQ l := by
  rw [quantileQ_eq l hne q] at hv
  obtain ⟨hs, hslen, hsne, hsub⟩ := sort_facts l hne
  obtain ⟨hr0, hr1⟩ := hq_range l hne q hq0 hq1
  have hr1s : q * ((l.length : ℚ) - 1) ≤
      ((l.insertionSort (· ≤ ·)).length : ℚ) - 1 := by
    rw [hslen]
    exact hr1
  have hb := interp_bounds _ hs _ hsne hr0 hr1s
  have hv2 : v = interpAt (l.insertionSort (· ≤ ·)) (q * ((l.length : ℚ) - 1)) := by
    cases hv
    rfl
  have hn1 : 1 ≤ (l.insertionSort (· ≤ ·)).length := by
    cases he : l.insertionSort (· ≤ ·) with
    | nil => exact absurd he hsne
    | cons a t => simp [he]
  obtain ⟨hf1, hf2, hf3⟩ := interp_floor_facts (q * ((l.length : ℚ) - 1))
    (l.insertionSort (· ≤ ·)).length hr0 hr1s hn1
  constructor
  · refine le_trans ?_ (hv2 ▸ hb.1)
    apply minQ_le_mem
    exact hsub _ (getD_mem_of_lt _ _ _ (by omega))
  · refine le_trans (hv2 ▸ hb.2) ?_
    apply mem_le_maxQ
    exact hsub _ (getD_mem_of_lt _ _ _ (by omega))

theorem quantile_quarters_mono (l : List ℚ) (hne : l ≠ []) (q1v q3v : ℚ)
    (h1 : quantileQ l (1/4) = some q1v) (h3 : quantileQ l (3/4) = some q3v) :
    q1v ≤ q3v := by
  rw [quantileQ_eq l hne _] at h1 h3
  obtain ⟨hs, hslen, hsne, _⟩ := sort_facts l hne
  obtain ⟨hr0, _⟩ := hq_range l hne (1/4) (by norm_num) (by norm_num)
  obtain ⟨_, hr1⟩ := hq_range l hne (3/4) (by norm_num) (by norm_num)
  have hr1s : (3/4 : ℚ) * ((l.length : ℚ) - 1) ≤
      ((l.insertionSort (· ≤ ·)).length : ℚ) - 1 := by
    rw [hslen]
    exact hr1
  have hgl : (0 : ℚ) ≤ (l.length : ℚ) - 1 := by
    have hn1 : 1 ≤ l.length := by
      cases l with
      | nil => exact absurd rfl hne
      | cons a t => simp
    have : (1 : ℚ) ≤ (l.length : ℚ) := by exact_mod_cast hn1
    linarith
  have h12 : (1/4 : ℚ) * ((l.length : ℚ) - 1) ≤ (3/4) * ((l.length : ℚ) - 1) :=
    mul_le_mul_of_nonneg_right (by norm_num) hgl
  have := interp_mono _ hs _ _ hsne hr0 h12 hr1s
  cases h1
  cases h3
  exact this

theorem clampQ_mem_range (lo hi x : ℚ) (h : lo ≤ hi) :
    lo ≤ clampQ lo hi x ∧ clampQ lo hi x ≤ hi := by
  unfold clampQ
  exact ⟨le_min (le_max_right _ _) h, min_le_right _ _⟩

theorem clampQ_mono (lo hi : ℚ) : Monotone (clampQ lo hi) := by
  intro a b hab
  unfold clampQ
  exact min_le_min (max_le_max hab (le_refl _)) (le_refl _)

theorem max_sub_max_le (a b lo : ℚ) (hab : a ≤ b) :
    max b lo - max a lo ≤ b - a := by
  have h1 : b ≤ (b - a) + max a lo := by
    have := le_max_left a lo
    linarith
  have h2 : lo ≤ (b - a) + max a lo := by
    have := le_max_right a lo
    linarith
  have := max_le h1 h2
  linarith

theorem min_sub_min_le (a b hi : ℚ) (hab : a ≤ b) :
    min b hi - min a hi ≤ b - a := by
  have h1 : min b hi - (b - a) ≤ a := by
    have := min_le_left b hi
    linarith
  have h2 : min b hi - (b - a) ≤ hi := by
    have := min_le_right b hi
    linarith
  have := le_min h1 h2
  linarith

theorem clamp_sub_le (lo hi a b : ℚ) (hab : a ≤ b) :
    clampQ lo hi b - clampQ lo hi a ≤ b - a := by
  unfold clampQ
  have h1 : max a lo ≤ max b lo := max_le_max hab (le_refl _)
  have h2 := min_sub_min_le (max a lo) (max b lo) hi h1
  have h3 := max_sub_max_le a b lo hab
  linarith

theorem applyClip_cols (df : DataFrame) (j : ℕ) (lo hi : ℚ) :
    (applyClip df j lo hi).cols = df.cols := rfl

theorem applyIqr_cols (df : DataFrame) (j : ℕ) :
    (applyIqr df j).cols = df.cols := by
  unfold applyIqr
  dsimp only
  split <;> rfl

theorem getCol_applyClip_ne (df : DataFrame) (i j : ℕ) (hij : i ≠ j)
    (lo hi : ℚ) : getCol (applyClip df i lo hi) j = getCol df j :=
  getCol_mapCol_ne df i j hij _

theorem getCol_applyIqr_ne (df : DataFrame) (i j : ℕ) (hij : i ≠ j) :
    getCol (applyIqr df i) j = getCol df j := by
  unfold applyIqr
  dsimp only
  split
  · exact getCol_mapCol_ne df i j hij _
  · rfl

theorem getCol_applyClip_self (df : DataFrame) (j : ℕ) (lo hi : ℚ) :
    getCol (applyClip df j lo hi) j = clampColCells lo hi (getCol df j) :=
  getCol_mapCol_self_of_fix df j _ rfl

theorem getCol_applyIqr_self (df : DataFrame) (j : ℕ) :
    getCol (applyIqr df j) j = applyIqrColCells (getCol df j) := by
  unfold applyIqr applyIqrColCells
  dsimp only
  cases h1 : quantileQ (nonMissingNums (getCol df j)) (1/4) with
  | none =>
    cases h3 : quantileQ (nonMissingNums (getCol df j)) (3/4) with
    | none => rfl
    | some q3 => rfl
  | some q1 =>
    cases h3 : quantileQ (nonMissingNums (getCol df j)) (3/4) with
    | none => rfl
    | some q3 => exact getCol_mapCol_self_of_fix df j _ rfl

theorem nums_clampColCells (lo hi : ℚ) (col : List Cell) :
    nonMissingNums (clampColCells lo hi col) =
      (nonMissingNums col).map (clampQ lo hi) :=
  nums_map_numeric col (clampQ lo hi)

theorem pncStep_ok_cols (df : DataFrame) (p : String × Treatment)
    (out : DataFrame) (h : pncStep df p = Except.ok out) : out.cols = df.cols := by
  unfold pncStep at h
  cases hi : colIdx df p.1 with
  | none =>
    rw [hi] at h
    cases h
    rfl
  | some i =>
    rw [hi] at h
    dsimp only at h
    by_cases hdt : (df.cols.getD i ("", Dtype.object)).2 = Dtype.numeric
    · rw [if_pos hdt] at h
      cases hp : p.2 with
      | iqr =>
        rw [hp] at h
        cases h
        exact applyIqr_cols df i
      | clipT lo hi2 =>
        rw [hp] at h
        cases h
        exact applyClip_cols df i lo hi2
    · rw [if_neg hdt] at h
      cases h

theorem pncStep_ok_other (df : DataFrame) (p : String × Treatment)
    (out : DataFrame) (j : ℕ) (h : pncStep df p = Except.ok out)
    (hname : p.1 ≠ (df.cols.getD j ("", Dtype.object)).1) :
    getCol out j = getCol df j := by
  unfold pncStep at h
  cases hi : colIdx df p.1 with
  | none =>
    rw [hi] at h
    cases h
    rfl
  | some i =>
    have hij : i ≠ j := by
      intro he
      subst he
      exact hname (colIdx_name df p.1 i hi).2.symm
    rw [hi] at h
    dsimp only at h
    by_cases hdt : (df.cols.getD i ("", Dtype.object)).2 = Dtype.numeric
    · rw [if_pos hdt] at h
      cases hp : p.2 with
      | iqr =>
        rw [hp] at h
        cases h
        exact getCol_applyIqr_ne df i j hij
      | clipT lo hi2 =>
        rw [hp] at h
        cases h
        exact getCol_applyClip_ne df i j hij lo hi2
    · rw [if_neg hdt] at h
      cases h

theorem pnc_fold_preserves (P : List (String × Treatment)) :
    ∀ (df out : DataFrame) (j : ℕ),
      foldStepsE pncStep df P = Except.ok out →
      (∀ p ∈ P, p.1 ≠ (df.cols.getD j ("", Dtype.object)).1) →
      getCol out j = getCol df j ∧ out.cols = df.cols := by
  induction P with
  | nil =>
    intro df out j h _
    cases h
    exact ⟨rfl, rfl⟩
  | cons p P ih =>
    intro df out j h hnames
    unfold foldStepsE at h
    cases hstep : pncStep df p with
    | ok d2 =>
      rw [hstep] at h
      have hcols2 := pncStep_ok_cols df p d2 hstep
      have hcol2 := pncStep_ok_other df p d2 j hstep
        (hnames p (List.mem_cons_self _ _))
      have := ih d2 out j h (by
        intro q hq
        rw [hcols2]
        exact hnames q (List.mem_cons_of_mem _ hq))
      rw [hcol2] at this
      rw [hcols2] at this
      exact this
    | error st =>
      rw [hstep] at h
      cases h

theorem pnc_fold_extract (P : List (String × Treatment)) :
    ∀ (df out : DataFrame) (c : String) (j : ℕ),
      (P.map Prod.fst).Nodup →
      foldStepsE pncStep df P = Except.ok out →
      (c, Treatment.iqr) ∈ P →
      colIdx df c = some j →
      getCol out j = applyIqrColCells (getCol df j) := by
  induction P with
  | nil =>
    intro df out c j _ _ hc _
    simp at hc
  | cons p P ih =>
    intro df out c j hnodup h hc hj
    have hnodupc : (p.1 :: P.map Prod.fst).Nodup := by
      rw [List.map_cons] at hnodup
      exact hnodup
    have hnd1 : p.1 ∉ P.map Prod.fst := (List.nodup_cons.mp hnodupc).1
    have hnd2 : (P.map Prod.fst).Nodup := (List.nodup_cons.mp hnodupc).2
    unfold foldStepsE at h
    by_cases hpc : p.1 = c
    · have hpeq : p = (c, Treatment.iqr) := by
        rcases List.mem_cons.mp hc with he | he
        · exact he.symm
        · exfalso
          have : c ∈ P.map Prod.fst := List.mem_map.mpr ⟨_, he, rfl⟩
          rw [← hpc] at this
          exact hnd1 this
      subst hpeq
      simp only at hpc
      cases hstep : pncStep df (c, Treatment.iqr) with
      | ok d2 =>
        rw [hstep] at h
        have hd2 : d2 = applyIqr df j := by
          unfold pncStep at hstep
          rw [hj] at hstep
          dsimp only at hstep
          by_cases hdt : (df.cols.getD j ("", Dtype.object)).2 = Dtype.numeric
          · rw [if_pos hdt] at hstep
            cases hstep
            rfl
          · rw [if_neg hdt] at hstep
            cases hstep
        have hname : ∀ q ∈ P, q.1 ≠ (d2.cols.getD j ("", Dtype.object)).1 := by
          intro q hq
          have hcols2 : d2.cols = df.cols := pncStep_ok_cols df _ d2 hstep
          rw [hcols2, (colIdx_name df c j hj).2]
          intro he
          have : c ∈ P.map Prod.fst := List.mem_map.mpr ⟨_, hq, he⟩
          exact hnd1 this
        have hpres := pnc_fold_preserves P d2 out j h hname
        rw [hpres.1, hd2]
        exact getCol_applyIqr_self df j
      | error st =>
        rw [hstep] at h
        cases h
    · cases hstep : pncStep df p with
      | ok d2 =>
        rw [hstep] at h
        have hcols2 := pncStep_ok_cols df p d2 hstep
        have hcol2 := pncStep_ok_other df p d2 j hstep (by
          rw [(colIdx_name df c j hj).2]
          exact hpc)
        have hctl : (c, Treatment.iqr) ∈ P := by
          rcases List.mem_cons.mp hc with he | he
          · exfalso
            exact hpc (by rw [← he])
          · exact he
        have hj2 : colIdx d2 c = some j := by
          rw [colIdx_congr d2 df c hcols2]
          exact hj
        have := ih d2 out c j hnd2 h hctl hj2
        rw [hcol2] at this
        exact this
      | error st =>
        rw [hstep] at h
        cases h

theorem pncE_ok_eq (df : DataFrame) (ex : List String)
    (h : (process_numeric_columnsE df ex).isOk = true) :
    process_numeric_columnsE df ex =
      Except.ok (process_numeric_columns df ex) := by
  unfold process_numeric_columns
  cases he : process_numeric_columnsE df ex with
  | ok r => rfl
  | error st =>
    rw [he] at h
    simp [Except.isOk, Except.toBool] at h

/-- C3 (amended): for a numeric column registered with the `iqr` treatment and
not excluded, when no treated column aborts the stage and the column has at
least one value, Q1 and Q3 exist (25th/75th percentile by linear interpolation
between closest ranks), and after `process_numeric_columns` every non-missing
cell of the column lies in [Q1 − 1.5·IQR, Q3 + 1.5·IQR] (missing cells pass
through unchanged, so the original "every cell" phrasing fails on them) and the
range of the column's values never increases. -/
theorem C3_iqr_clamp (df : DataFrame) (ex : List String) (c : String) (j : ℕ)
    (hj : colIdx df c = some j)
    (hpol : (c, Treatment.iqr) ∈ numeric_columns_policy)
    (hex : ex.contains c = false)
    (hok : (process_numeric_columnsE df ex).isOk = true)
    (hne : nonMissingNums (getCol df j) ≠ []) :
    ∃ q1 q3,
      quantileQ (nonMissingNums (getCol df j)) (1/4) = some q1 ∧
      quantileQ (nonMissingNums (getCol df j)) (3/4) = some q3 ∧
      q1 ≤ q3 ∧
      (∀ v ∈ nonMissingNums (getCol (process_numeric_columns df ex) j),
        q1 - 3/2 * (q3 - q1) ≤ v ∧ v ≤ q3 + 3/2 * (q3 - q1)) ∧
      maxQ (nonMissingNums (getCol (process_numeric_columns df ex) j)) -
          minQ (nonMissingNums (getCol (process_numeric_columns df ex) j)) ≤
        maxQ (nonMissingNums (getCol df j)) -
          minQ (nonMissingNums (getCol df j)) := by
  set vals := nonMissingNums (getCol df j) with hvals
  obtain ⟨q1, h1⟩ : ∃ v, quantileQ vals (1/4) = some v :=
    ⟨_, quantileQ_eq vals hne (1/4)⟩
  obtain ⟨q3, h3⟩ : ∃ v, quantileQ vals (3/4) = some v :=
    ⟨_, quantileQ_eq vals hne (3/4)⟩
  have h13 : q1 ≤ q3 := quantile_quarters_mono vals hne q1 q3 h1 h3
  set lo := q1 - 3/2 * (q3 - q1) with hlo
  set hi := q3 + 3/2 * (q3 - q1) with hhi
  have hlohi : lo ≤ hi := by
    rw [hlo, hhi]
    linarith
  have hfold : foldStepsE pncStep df
      (numeric_columns_policy.filter fun p => !(ex.contains p.1)) =
        Except.ok (process_numeric_columns df ex) :=
    pncE_ok_eq df ex hok
  have hmemP : (c, Treatment.iqr) ∈
      numeric_columns_policy.filter fun p => !(ex.contains p.1) := by
    apply List.mem_filter.mpr
    refine ⟨hpol, ?_⟩
    rw [hex]
    rfl
  have hnodupP : ((numeric_columns_policy.filter fun p =>
      !(ex.contains p.1)).map Prod.fst).Nodup := by
    have hall : (numeric_columns_policy.map Prod.fst).Nodup := by decide
    exact hall.sublist (List.Sublist.map _ (List.filter_sublist _))
  have hcol := pnc_fold_extract _ df (process_numeric_columns df ex) c j
    hnodupP hfold hmemP hj
  have hcells : applyIqrColCells (getCol df j) =
      clampColCells lo hi (getCol df j) := by
    unfold applyIqrColCells
    rw [← hvals, h1, h3]
  rw [hcells] at hcol
  have hnums : nonMissingNums (getCol (process_numeric_columns df ex) j) =
      vals.map (clampQ lo hi) := by
    rw [hcol, nums_clampColCells, hvals]
  refine ⟨q1, q3, h1, h3, h13, ?_, ?_⟩
  · intro v hv
    rw [hnums] at hv
    obtain ⟨p, _, rfl⟩ := List.mem_map.mp hv
    exact clampQ_mem_range lo hi p hlohi
  · rw [hnums]
    rw [minQ_map_mono _ (clampQ_mono lo hi) _ hne,
      maxQ_map_mono _ (clampQ_mono lo hi) _ hne]
    exact clamp_sub_le lo hi _ _ (minQ_le_maxQ vals hne)

/-- C3 counterexample: in `dfX3` both quartiles equal 1, so the clip range is
the single point [1, 1]; after `process_numeric_columns` the second cell is
still the missing marker, which lies in no numeric range — "every cell of the
output column lies in [Q1 − 1.5·IQR, Q3 + 1.5·IQR]" fails on missing cells. -/
theorem C3_iqr_counterexample :
    quantileQ (nonMissingNums (getCol dfX3 0)) (1/4) = some 1 ∧
    quantileQ (nonMissingNums (getCol dfX3 0)) (3/4) = some 1 ∧
    (getCol (process_numeric_columns dfX3 []) 0).getD 1 Cell.missing =
      Cell.missing ∧
    ¬(∀ x ∈ getCol (process_numeric_columns dfX3 []) 0, ∃ q : ℚ,
        x = Cell.num q ∧ 1 - 3/2 * (1 - 1) ≤ q ∧ q ≤ 1 + 3/2 * (1 - 1)) := by
  refine ⟨by with_unfolding_all decide, by with_unfolding_all decide,
    by with_unfolding_all decide, ?_⟩
  intro h
  have hm : Cell.missing ∈ getCol (process_numeric_columns dfX3 []) 0 := by
    with_unfolding_all decide
  obtain ⟨q, hq, _⟩ := h Cell.missing hm
  cases hq

theorem C3_iqr_clamp_witness :
    (colIdx dfW3 "Average_Temperature_C" = some 0 ∧
      ("Average_Temperature_C", Treatment.iqr) ∈ numeric_columns_policy ∧
      ([] : List String).contains "Average_Temperature_C" = false ∧
      (process_numeric_columnsE dfW3 []).isOk = true ∧
      nonMissingNums (getCol dfW3 0) ≠ []) ∧
    (∃ q1 q3,
      quantileQ (nonMissingNums (getCol dfW3 0)) (1/4) = some q1 ∧
      quantileQ (nonMissingNums (getCol dfW3 0)) (3/4) = some q3 ∧
      q1 ≤ q3 ∧
      (∀ v ∈ nonMissingNums (getCol (process_numeric_columns dfW3 []) 0),
        q1 - 3/2 * (q3 - q1) ≤ v ∧ v ≤ q3 + 3/2 * (q3 - q1)) ∧
      maxQ (nonMissingNums (getCol (process_numeric_columns dfW3 []) 0)) -
          minQ (nonMissingNums (getCol (process_numeric_columns dfW3 []) 0)) ≤
        maxQ (nonMissingNums (getCol dfW3 0)) -
          minQ (nonMissingNums (getCol dfW3 0))) :=
  ⟨⟨by decide, by decide, by decide, by with_unfolding_all decide,
    by with_unfolding_all decide⟩,
   C3_iqr_clamp dfW3 [] "Average_Temperature_C" 0 (by decide) (by decide)
     (by decide) (by with_unfolding_all decide)
     (by with_unfolding_all decide)⟩

theorem rowTail_append (a b : List Cell) : rowTail (a ++ b) b.length = b := by
  unfold rowTail
  rw [List.length_append]
  have : a.length + b.length - b.length = a.length := by omega
  rw [this]
  exact List.drop_left a b

theorem dropCol_appendDerived_rows (df1 : DataFrame) (j : ℕ)
    (gs : List (String × (Cell → Cell))) (c : String)
    (hlen : ∀ r ∈ df1.rows, r.length = df1.cols.length)
    (hnames : ∀ p ∈ gs, (p.1 == c) = false) :
    (dropColByName (appendDerivedCols df1 j gs) c).rows =
      df1.rows.map fun r =>
        (((df1.cols.zip r).filter fun q => !(q.1.1 == c)).map Prod.snd) ++
          gs.map fun p => p.2 (r.getD j Cell.missing) := by
  unfold dropColByName appendDerivedCols
  simp only [List.map_map]
  apply List.map_congr_left
  intro r hr
  simp only [Function.comp_apply]
  rw [List.zip_append ((hlen r hr).symm)]
  rw [List.filter_append, List.map_append]
  congr 1
  have hfil : (((gs.map fun p => (p.1, Dtype.numeric)).zip
      (gs.map fun p => p.2 (r.getD j Cell.missing))).filter
        fun q => !(q.1.1 == c)) =
      ((gs.map fun p => (p.1, Dtype.numeric)).zip
        (gs.map fun p => p.2 (r.getD j Cell.missing))) := by
    apply List.filter_eq_self.mpr
    intro q hq
    obtain ⟨⟨name, dt⟩, cell⟩ := q
    have hq1 := (List.of_mem_zip hq).1
    obtain ⟨p, hp, hpe⟩ := List.mem_map.mp hq1
    have hname : name = p.1 := by
      cases hpe
      rfl
    rw [hname, hnames p hp]
    rfl
  rw [hfil]
  apply List.map_snd_zip
  rw [List.length_map, List.length_map]

theorem string_append_ne (c v : String) : ((c ++ "_" ++ v) == c) = false := by
  have hne : c ++ "_" ++ v ≠ c := by
    intro h
    have := congrArg String.length h
    rw [String.length_append, String.length_append] at this
    have h1 : String.length "_" = 1 := rfl
    omega
  cases hbe : (c ++ "_" ++ v == c)
  · rfl
  · exact absurd (eq_of_beq hbe) hne

theorem string_other_ne (c : String) : ((c ++ "_Other") == c) = false := by
  have hne : c ++ "_Other" ≠ c := by
    intro h
    have := congrArg String.length h
    rw [String.length_append] at this
    have h1 : String.length "_Other" = 6 := rfl
    omega
  cases hbe : (c ++ "_Other" == c)
  · rfl
  · exact absurd (eq_of_beq hbe) hne

theorem dummyColsFor_names (c : String) (col : List Cell) (collapsed : Bool) :
    ∀ p ∈ dummyColsFor c col collapsed, (p.1 == c) = false := by
  intro p hp
  unfold dummyColsFor at hp
  by_cases hcase : (collapsed && !((distinctTexts col).contains "Other")) = true
  · rw [if_pos hcase] at hp
    rcases List.mem_append.mp hp with h | h
    · obtain ⟨v, _, rfl⟩ := List.mem_map.mp h
      exact string_append_ne c v
    · simp only [List.mem_singleton] at h
      rw [h]
      exact string_other_ne c
  · rw [if_neg hcase] at hp
    obtain ⟨v, _, rfl⟩ := List.mem_map.mp hp
    exact string_append_ne c v

theorem count_indicator_map (l : List String) (u : String) :
    (l.map fun v => indicatorOf v (Cell.text u)).count (Cell.num 1) = l.count u := by
  induction l with
  | nil => rfl
  | cons a t ih =>
    simp only [List.map_cons, List.count_cons, ih]
    congr 1
    unfold indicatorOf
    by_cases hau : u = a
    · subst hau
      simp
    · have h1 : (Cell.text u == Cell.text a) = false := by
        cases hbe : (Cell.text u == Cell.text a)
        · rfl
        · exfalso
          have h2 := eq_of_beq hbe
          cases h2
          exact hau rfl
      rw [h1]
      have h2 : (a == u) = false := by
        cases hbe : (a == u)
        · rfl
        · exact absurd (eq_of_beq hbe).symm hau
      rw [h2]
      have h3 : (Cell.num 0 == Cell.num 1) = false := by decide
      simp [h3]

theorem count_indicator_map_missing (l : List String) :
    (l.map fun v => indicatorOf v Cell.missing).count (Cell.num 1) = 0 := by
  induction l with
  | nil => rfl
  | cons a t ih =>
    simp only [List.map_cons, List.count_cons, ih]
    unfold indicatorOf
    have h1 : (Cell.missing == Cell.text a) = false := by
      cases hbe : (Cell.missing == Cell.text a)
      · rfl
      · exfalso
        have h2 := eq_of_beq hbe
        simp at h2
    rw [h1]
    have h3 : (Cell.num 0 == Cell.num 1) = false := by decide
    simp [h3]

theorem dummy_block_cells (c : String) (col : List Cell) (collapsed : Bool)
    (x1 : Cell) :
    ∀ y ∈ (dummyColsFor c col collapsed).map fun p => p.2 x1,
      y = Cell.num 0 ∨ y = Cell.num 1 := by
  intro y hy
  obtain ⟨p, hp, rfl⟩ := List.mem_map.mp hy
  unfold dummyColsFor at hp
  have hbase : ∀ q ∈ (distinctTexts col).map
      fun v => (c ++ "_" ++ v, indicatorOf v),
      q.2 x1 = Cell.num 0 ∨ q.2 x1 = Cell.num 1 := by
    intro q hq
    obtain ⟨v, _, rfl⟩ := List.mem_map.mp hq
    unfold indicatorOf
    dsimp only
    by_cases hxv : (x1 == Cell.text v) = true
    · rw [if_pos hxv]
      right
      rfl
    · rw [if_neg hxv]
      left
      rfl
  by_cases hcase : (collapsed && !((distinctTexts col).contains "Other")) = true
  · rw [if_pos hcase] at hp
    rcases List.mem_append.mp hp with h | h
    · exact hbase p h
    · simp only [List.mem_singleton] at h
      rw [h]
      left
      rfl
  · rw [if_neg hcase] at hp
    exact hbase p hp

theorem dummy_block_count_text (c : String) (col : List Cell) (collapsed : Bool)
    (u : String) (hu : u ∈ distinctTexts col) :
    ((dummyColsFor c col collapsed).map fun p => p.2 (Cell.text u)).count
      (Cell.num 1) = 1 := by
  have hnodup : (distinctTexts col).Nodup := List.nodup_dedup _
  have hbase : ((distinctTexts col).map
      (fun v => (c ++ "_" ++ v, indicatorOf v))).map
        (fun p => p.2 (Cell.text u)) =
      (distinctTexts col).map fun v => indicatorOf v (Cell.text u) := by
    rw [List.map_map]
    rfl
  have hcnt : (((distinctTexts col).map
      fun v => indicatorOf v (Cell.text u)).count (Cell.num 1)) = 1 := by
    rw [count_indicator_map]
    exact List.count_eq_one_of_mem hnodup hu
  unfold dummyColsFor
  by_cases hcase : (collapsed && !((distinctTexts col).contains "Other")) = true
  · rw [if_pos hcase, List.map_append, List.count_append, hbase, hcnt]
    have : ([(c ++ "_Other", fun _ => Cell.num 0)].map
        fun p => p.2 (Cell.text u)).count (Cell.num 1) = 0 := by
      simp only [List.map_cons, List.map_nil]
      rfl
    rw [this]
  · rw [if_neg hcase, hbase, hcnt]

theorem dummy_block_count_missing (c : String) (col : List Cell)
    (collapsed : Bool) :
    ((dummyColsFor c col collapsed).map fun p => p.2 Cell.missing).count
      (Cell.num 1) = 0 := by
  have hbase : ((distinctTexts col).map
      (fun v => (c ++ "_" ++ v, indicatorOf v))).map
        (fun p => p.2 Cell.missing) =
      (distinctTexts col).map fun v => indicatorOf v Cell.missing := by
    rw [List.map_map]
    rfl
  unfold dummyColsFor
  by_cases hcase : (collapsed && !((distinctTexts col).contains "Other")) = true
  · rw [if_pos hcase, List.map_append, List.count_append, hbase,
      count_indicator_map_missing]
    simp only [List.map_cons, List.map_nil]
    rfl
  · rw [if_neg hcase, hbase, count_indicator_map_missing]

theorem dummyRemap_cols (df : DataFrame) (j mc : ℕ) :
    (dummyRemap df j mc).cols = df.cols := by
  unfold dummyRemap
  split <;> rfl

theorem remapCell_matches_object (top : List String) (x : Cell)
    (hx : cellMatches Dtype.object x = true) :
    cellMatches Dtype.object (remapCell top x) = true := by
  unfold remapCell
  split
  · exact hx
  · rfl

theorem dummyRemap_wf (df : DataFrame) (j mc : ℕ) (hwf : df.wf = true)
    (hdt : (df.cols.getD j ("", Dtype.object)).2 = Dtype.object) :
    (dummyRemap df j mc).wf = true := by
  unfold dummyRemap
  split
  · apply wf_mapCol df j _ hwf
    intro x hx
    rw [hdt] at hx ⊢
    exact remapCell_matches_object _ x hx
  · exact hwf

theorem remapCell_text_or_missing (top : List String) (x : Cell)
    (hx : cellMatches Dtype.object x = true) :
    (∃ u, remapCell top x = Cell.text u) ∨
      (remapCell top x = Cell.missing ∧ False) := by
  unfold remapCell
  split
  next hcond =>
    cases x with
    | num q => simp at hcond
    | text s => exact Or.inl ⟨s, rfl⟩
    | missing => simp at hcond
  next hcond => exact Or.inl ⟨"Other", rfl⟩

/-- C5: in the output of `create_dummy_variables` for an object column `c`,
each row's indicator block (the appended columns, read off as the last `k`
cells of the row) consists of 0/1 cells only, and carries exactly one 1 —
except that it is all zeros precisely when the original cell was missing and no
vocabulary collapse occurred; and whenever values were collapsed into
`"Other"`, an indicator column named `c ++ "_Other"` exists in the output even
if no row originally held that literal value. -/
theorem C5_dummy_indicators (df : DataFrame) (c : String) (j mc : ℕ)
    (hwf : df.wf = true) (hj : colIdx df c = some j)
    (hdt : (df.cols.getD j ("", Dtype.object)).2 = Dtype.object) :
    ∃ k,
      (create_dummy_variables df (some [c]) mc false).rows.length =
        df.rows.length ∧
      (∀ i, i < df.rows.length →
        (rowTail ((create_dummy_variables df (some [c]) mc false).rows.getD i [])
            k).length = k ∧
        (∀ y ∈ rowTail
            ((create_dummy_variables df (some [c]) mc false).rows.getD i []) k,
          y = Cell.num 0 ∨ y = Cell.num 1) ∧
        ((rowTail ((create_dummy_variables df (some [c]) mc false).rows.getD i [])
            k).count (Cell.num 1) = 1 ∨
          ((rowTail ((create_dummy_variables df (some [c]) mc false).rows.getD i [])
              k).count (Cell.num 1) = 0 ∧
            (df.rows.getD i []).getD j Cell.missing = Cell.missing))) ∧
      ((distinctTexts (getCol df j)).length > mc →
        (c ++ "_Other") ∈
          (create_dummy_variables df (some [c]) mc false).cols.map Prod.fst) := by
  have hlen : ∀ r ∈ df.rows, r.length = df.cols.length :=
    fun r hr => ((wf_iff_index df).mp hwf r hr).1
  have hjlt : j < df.cols.length := (colIdx_name df c j hj).1
  have hndt : ¬((df.cols.getD j ("", Dtype.object)).2 = Dtype.numeric) := by
    rw [hdt]
    intro h
    cases h
  set df1 := dummyRemap df j mc with hdf1
  set gs := dummyColsFor c (getCol df1 j)
    (decide ((distinctTexts (getCol df j)).length > mc)) with hgs
  have hout : create_dummy_variables df (some [c]) mc false =
      dropColByName (appendDerivedCols df1 j gs) c := by
    unfold create_dummy_variables create_dummy_variablesE
    have hc1 : (([c] : List String).filter fun x => (colIdx df x).isSome) = [c] := by
      simp [hj]
    dsimp only [Option.getD]
    rw [hc1]
    have hemp : (([c] : List String).isEmpty = true) = False := by
      simp
    rw [if_neg (by simp)]
    unfold foldStepsE dummyStep
    rw [hj]
    dsimp only
    rw [if_neg hndt]
    dsimp only
    rfl
  have hwf1 : df1.wf = true := dummyRemap_wf df j mc hwf hdt
  have hlen1 : ∀ r ∈ df1.rows, r.length = df1.cols.length :=
    fun r hr => ((wf_iff_index df1).mp hwf1 r hr).1
  have hrows : (dropColByName (appendDerivedCols df1 j gs) c).rows =
      df1.rows.map fun r =>
        (((df1.cols.zip r).filter fun q => !(q.1.1 == c)).map Prod.snd) ++
          gs.map fun p => p.2 (r.getD j Cell.missing) :=
    dropCol_appendDerived_rows df1 j gs c hlen1 (dummyColsFor_names c _ _)
  have hrlen1 : df1.rows.length = df.rows.length := by
    rw [hdf1]
    unfold dummyRemap
    split
    · simp [mapCol]
    · rfl
  refine ⟨gs.length, ?_, ?_, ?_⟩
  · rw [hout, hrows, List.length_map, hrlen1]
  · intro i hi
    have hi1 : i < df1.rows.length := by omega
    have hrowi : (create_dummy_variables df (some [c]) mc false).rows.getD i [] =
        (((df1.cols.zip (df1.rows.getD i [])).filter
            fun q => !(q.1.1 == c)).map Prod.snd) ++
          gs.map fun p => p.2 ((df1.rows.getD i []).getD j Cell.missing) := by
      rw [hout, hrows]
      exact getD_map_of_lt _ df1.rows i [] _ hi1
    have hblock : rowTail
        ((create_dummy_variables df (some [c]) mc false).rows.getD i [])
          gs.length =
        gs.map fun p => p.2 ((df1.rows.getD i []).getD j Cell.missing) := by
      rw [hrowi]
      have hb := rowTail_append
        ((((df1.cols.zip (df1.rows.getD i [])).filter
            fun q => !(q.1.1 == c)).map Prod.snd))
        (gs.map fun p => p.2 ((df1.rows.getD i []).getD j Cell.missing))
      rw [List.length_map] at hb
      exact hb
    set x1 := (df1.rows.getD i []).getD j Cell.missing with hx1
    have hx1mem : x1 ∈ getCol df1 j :=
      (mem_getCol df1 j x1).mpr ⟨_, getD_mem_of_lt _ _ _ hi1, rfl⟩
    have hx1shape : (∃ u, x1 = Cell.text u) ∨ x1 = Cell.missing := by
      have hcols1 : df1.cols = df.cols := dummyRemap_cols df j mc
      have hmatch : cellMatches Dtype.object x1 = true := by
        have hidx := ((wf_iff_index df1).mp hwf1 _
          (getD_mem_of_lt df1.rows i [] hi1)).2 j (by rw [hcols1]; exact hjlt)
        rw [hcols1, hdt] at hidx
        exact hidx
      cases hx : x1 with
      | num q =>
        rw [hx] at hmatch
        simp [cellMatches] at hmatch
      | text s => exact Or.inl ⟨s, rfl⟩
      | missing => exact Or.inr rfl
    refine ⟨?_, ?_, ?_⟩
    · rw [hblock, List.length_map]
    · rw [hblock]
      exact dummy_block_cells c _ _ x1
    · rcases hx1shape with ⟨u, hu⟩ | hmiss
      · left
        rw [hblock, hu]
        apply dummy_block_count_text
        have : Cell.text u ∈ getCol df1 j := hu ▸ hx1mem
        have hut : u ∈ textsOf (getCol df1 j) := by
          simp only [textsOf, List.mem_filterMap]
          exact ⟨Cell.text u, this, rfl⟩
        exact List.mem_dedup.mpr hut
      · right
        constructor
        · rw [hblock, hmiss]
          exact dummy_block_count_missing c _ _
        · -- x1 missing forces no collapse and an originally missing cell
          have hx1eq : x1 = (if (distinctTexts (getCol df j)).length > mc then
              remapCell (topCategories (getCol df j) (mc - 1))
                ((df.rows.getD i []).getD j Cell.missing)
            else (df.rows.getD i []).getD j Cell.missing) := by
            rw [hx1, hdf1]
            unfold dummyRemap
            split
            next hcoll =>
              have heq : (mapCol df j (remapCell
                  (topCategories (getCol df j) (mc - 1)))).rows.getD i [] =
                  (df.rows.getD i []).set j
                    (remapCell (topCategories (getCol df j) (mc - 1))
                      ((df.rows.getD i []).getD j Cell.missing)) := by
                unfold mapCol
                exact getD_map_of_lt _ df.rows i [] _ hi
              rw [heq]
              exact getD_set_self _ _ _ _ (by
                rw [hlen _ (getD_mem_of_lt df.rows i [] hi)]
                exact hjlt)
            next hcoll =>
              rfl
          by_cases hcoll : (distinctTexts (getCol df j)).length > mc
          · exfalso
            rw [if_pos hcoll] at hx1eq
            rw [hx1eq] at hmiss
            unfold remapCell at hmiss
            split at hmiss
            next hcond =>
              rw [hmiss] at hcond
              simp at hcond
            next hcond =>
              cases hmiss
          · rw [if_neg hcoll] at hx1eq
            rw [← hx1eq]
            exact hmiss
  · intro hcoll
    have hmemname : (c ++ "_Other") ∈ gs.map Prod.fst := by
      rw [hgs]
      unfold dummyColsFor
      dsimp only
      by_cases hoc : ((distinctTexts (getCol df1 j)).contains "Other") = true
      · have hocm : "Other" ∈ distinctTexts (getCol df1 j) := by
          exact List.mem_of_elem_eq_true hoc
        have hin : (c ++ "_" ++ "Other") ∈ ((distinctTexts (getCol df1 j)).map
            fun v => (c ++ "_" ++ v, indicatorOf v)).map Prod.fst := by
          rw [List.map_map]
          exact List.mem_map.mpr ⟨"Other", hocm, rfl⟩
        have hstr : c ++ "_" ++ "Other" = c ++ "_Other" := by
          rw [String.append_assoc]
          exact congrArg (fun s => c ++ s) (by decide)
        rw [← hstr]
        by_cases hbc : ((decide ((distinctTexts (getCol df j)).length > mc)) &&
            !((distinctTexts (getCol df1 j)).contains "Other")) = true
        · rw [if_pos hbc, List.map_append]
          exact List.mem_append_left _ hin
        · rw [if_neg hbc]
          exact hin
      · have hcond : ((decide ((distinctTexts (getCol df j)).length > mc)) &&
            !((distinctTexts (getCol df1 j)).contains "Other")) = true := by
          rw [Bool.and_eq_true]
          constructor
          · exact decide_eq_true hcoll
          · rw [Bool.not_eq_true']
            cases ho : (distinctTexts (getCol df1 j)).contains "Other"
            · rfl
            · exact absurd ho hoc
        rw [if_pos hcond, List.map_append]
        apply List.mem_append_right
        simp
    rw [hout]
    unfold dropColByName appendDerivedCols
    dsimp only
    obtain ⟨p, hp, hpe⟩ := List.mem_map.mp hmemname
    apply List.mem_map.mpr
    refine ⟨(p.1, Dtype.numeric), ?_, hpe⟩
    apply List.mem_filter.mpr
    constructor
    · apply List.mem_append_right
      exact List.mem_map.mpr ⟨p, hp, rfl⟩
    · rw [hpe]
      rw [string_other_ne c]
      rfl

/-- Witness: `C5_dummy_indicators` applied to a concrete three-row table with an
object column holding two distinct values and one missing cell. -/
theorem C5_dummy_indicators_witness :
    dfW5.wf = true ∧ colIdx dfW5 "Region" = some 0 ∧
      (dfW5.cols.getD 0 ("", Dtype.object)).2 = Dtype.object ∧
      ∃ k,
        (create_dummy_variables dfW5 (some ["Region"]) 10 false).rows.length =
          dfW5.rows.length ∧
        (∀ i, i < dfW5.rows.length →
          (rowTail ((create_dummy_variables dfW5 (some ["Region"]) 10 false).rows.getD i [])
              k).length = k ∧
          (∀ y ∈ rowTail
              ((create_dummy_variables dfW5 (some ["Region"]) 10 false).rows.getD i []) k,
            y = Cell.num 0 ∨ y = Cell.num 1) ∧
          ((rowTail ((create_dummy_variables dfW5 (some ["Region"]) 10 false).rows.getD i [])
              k).count (Cell.num 1) = 1 ∨
            ((rowTail ((create_dummy_variables dfW5 (some ["Region"]) 10 false).rows.getD i [])
                k).count (Cell.num 1) = 0 ∧
              (dfW5.rows.getD i []).getD 0 Cell.missing = Cell.missing))) ∧
        ((distinctTexts (getCol dfW5 0)).length > 10 →
          ("Region" ++ "_Other") ∈
            (create_dummy_variables dfW5 (some ["Region"]) 10 false).cols.map Prod.fst) :=
  ⟨by decide, by decide, by decide,
    C5_dummy_indicators dfW5 "Region" 0 10 (by decide) (by decide) (by decide)⟩
